import Mathlib

/-!
Verification of the core of `better-auth-paths-generator`: the schema field
finder, the operation scanners and the path grouper of
`src/generate-types.ts` and `src/simple-generate-types.ts`.

The source is untyped TypeScript walking JSON-like values, so schemas,
responses and request bodies are embedded as a `Json` value type with
JavaScript truthiness, member access and enumeration semantics.  The two
recursive `findFieldsInSchema` functions are embedded with an explicit
structural fuel equal to `11 - depth`: the source stops as soon as
`depth > 10`, which is exactly when the fuel reaches zero, so the embedding
computes the same result while being a total Lean function.
-/

/-- JavaScript value as manipulated by the generator: `null`/`undefined`
(collapsed, they behave identically in every check the source performs),
booleans, numbers, strings, arrays and objects (association lists in
insertion order). -/
inductive Json where
  | null
  | bool (b : Bool)
  | num (n : Int)
  | str (s : String)
  | arr (elems : List Json)
  | obj (fields : List (String × Json))

/-- JavaScript truthiness of a value. -/
def truthy : Json → Bool
  | Json.null => false
  | Json.bool b => b
  | Json.num n => decide (n ≠ 0)
  | Json.str s => decide (s ≠ "")
  | Json.arr _ => true
  | Json.obj _ => true

/-- `x && typeof x === 'object'`: a truthy value of object type
(arrays included, `null` excluded by truthiness). -/
def isObjectLike : Json → Bool
  | Json.arr _ => true
  | Json.obj _ => true
  | _ => false

/-- First-match lookup in an association list keyed by strings
(JavaScript objects cannot hold duplicate keys, so first-match is exact). -/
def objGet {α : Type} : List (String × α) → String → Option α
  | [], _ => none
  | kv :: rest, k => if kv.1 = k then some kv.2 else objGet rest k

/-- Decimal digit value of a character, using code points. -/
def digitVal (c : Char) : Option Nat :=
  if 48 ≤ c.toNat ∧ c.toNat ≤ 57 then some (c.toNat - 48) else none

def parseDigitsAux : List Char → Nat → Option Nat
  | [], acc => some acc
  | c :: rest, acc =>
    match digitVal c with
    | some d => parseDigitsAux rest (acc * 10 + d)
    | none => none

/-- Canonical array-index string ("0", "1", ..., no leading zeros),
as used by JavaScript property access on arrays. -/
def parseArrayIndex (k : String) : Option Nat :=
  match k.toList with
  | [] => none
  | ['0'] => some 0
  | c :: rest =>
    if c = '0' then none
    else match digitVal c with
      | some d => parseDigitsAux rest d
      | none => none

/-- JavaScript member access `j[k]`, as an option (`none` = `undefined`). -/
def jsProp : Json → String → Option Json
  | Json.obj fields, k => objGet fields k
  | Json.arr elems, k =>
    if k = "length" then some (Json.num elems.length)
    else
      match parseArrayIndex k with
      | some i => elems.get? i
      | none => none
  | Json.str s, k =>
    if k = "length" then some (Json.num s.toList.length)
    else
      match parseArrayIndex k with
      | some i => (s.toList.get? i).map (fun c => Json.str (String.mk [c]))
      | none => none
  | _, _ => none

/-- JavaScript member access `j[k]` as a value: missing members read as
`undefined`, which behaves like `Json.null` in every later check. -/
def jsIndex (j : Json) (k : String) : Json := (jsProp j k).getD Json.null

/-- The JavaScript `in` operator restricted to own properties. -/
def jsHasKey (j : Json) (k : String) : Bool :=
  match j with
  | Json.obj fields => fields.any (fun kv => decide (kv.1 = k))
  | Json.arr elems =>
    decide (k = "length") ||
      (match parseArrayIndex k with
       | some i => decide (i < elems.length)
       | none => false)
  | _ => false

/-- Enumerable own entries in `for (const k in j)` order: object keys in
insertion order, array and string indices. -/
def jsOwnEntries : Json → List (String × Json)
  | Json.obj fields => fields
  | Json.arr elems => elems.enum.map (fun p => (toString p.1, p.2))
  | Json.str s => s.toList.enum.map (fun p => (toString p.1, Json.str (String.mk [p.2])))
  | _ => []

/-- Strict equality of a value with a string literal (`j === "s"`). -/
def isStrVal (j : Json) (s : String) : Bool :=
  match j with
  | Json.str t => decide (t = s)
  | _ => false

/-- Strict equality with the boolean `true` (`j === true`). -/
def isTrueVal : Json → Bool
  | Json.bool b => b
  | _ => false

/-- The spread of a `Set` built from a list (`[...new Set(l)]`): each element
once, first occurrences first.  `seen` accumulates the elements already kept. -/
def jsDedupAux : List String → List String → List String
  | [], _ => []
  | x :: xs, seen =>
    if x ∈ seen then jsDedupAux xs seen else x :: jsDedupAux xs (x :: seen)

def jsDedup (l : List String) : List String := jsDedupAux l []

/-- `Set.prototype.add`: append if absent (JavaScript sets preserve
insertion order). -/
def setAdd (l : List String) (x : String) : List String :=
  if x ∈ l then l else l ++ [x]

/-- Code-point lexicographic comparison of character lists, the order used by
`Array.prototype.sort()` on path strings. -/
def lexLe : List Char → List Char → Bool
  | [], _ => true
  | _ :: _, [] => false
  | a :: as, b :: bs =>
    if a.toNat < b.toNat then true
    else if a.toNat = b.toNat then lexLe as bs
    else false

def strLe (a b : String) : Bool := lexLe a.toList b.toList

/-- `Array.from(set).sort()`: the sorted copy of a path list. -/
def sortStrings (l : List String) : List String :=
  List.insertionSort (fun a b => strLe a b = true) l

/-- Valid HTTP methods to process (`HTTP_METHODS`). -/
def HTTP_METHODS : List String :=
  ["get", "post", "put", "delete", "patch", "head", "options"]

/-- The implicit default group name (`DEFAULT_GROUP`). -/
def DEFAULT_GROUP : String := "default"

/-- The keys of combined schemas (`combinedSchemas` in both finders). -/
def COMBINED_KEYS : List String := ["allOf", "oneOf", "anyOf"]

namespace GenTypes

/-! The `src/generate-types.ts` implementation. -/

inductive Location where
  | request
  | response
deriving DecidableEq

/-- The optional logging context threaded through `findFieldsInSchema`. -/
structure Ctx where
  path : Option String
  method : Option String
  location : Option Location

/-- Truthiness of `debug && context.path && context.method && context.location`
minus the `debug` conjunct. -/
def ctxTruthy (c : Ctx) : Bool :=
  (match c.path with | some s => decide (s ≠ "") | none => false) &&
  (match c.method with | some s => decide (s ≠ "") | none => false) &&
  (match c.location with | some _ => true | none => false)

/-- One line written to the log sink.  `kind` distinguishes the five
`console.log` sites of the finder. -/
structure LogEntry where
  path : String
  method : String
  field : String
  location : Location
  nested : Bool
  kind : String

/-- `logFieldDetection`: the debug line for a direct finding. -/
def logFieldDetection (path method field : String) (location : Location)
    (nested : Bool) : LogEntry :=
  ⟨path, method, field, location, nested, "found"⟩

/-- The debug line of one of the conservative branches. -/
def potentialLog (c : Ctx) (field kind : String) : LogEntry :=
  ⟨c.path.getD "", c.method.getD "", field, c.location.getD Location.response,
    false, kind⟩

/-- `findFieldsInSchema` of `generate-types.ts`, with fuel `11 - depth`
driving the recursion (the source returns `[]` as soon as `depth > 10`,
which is exactly fuel `0`).  Returns the found fields and the log lines the
call prints. -/
def findAux : Nat → Json → List String → Nat → Bool → Ctx →
    List String × List LogEntry
  | 0, _, _, _, _, _ => ([], [])
  | fuel + 1, schema, targetFields, depth, debug, context =>
    if !isObjectLike schema then ([], [])
    else
      (jsDedup
        ((if isObjectLike (jsIndex schema "properties") then
            targetFields.filter (fun f => jsHasKey (jsIndex schema "properties") f)
          else [])
         ++ (if isObjectLike (jsIndex schema "properties") then
              ((jsOwnEntries (jsIndex schema "properties")).map
                (fun kv => (findAux fuel kv.2 targetFields (depth + 1) debug context).1)).flatten
            else [])
         ++ (if truthy (jsIndex schema "items") then
              (findAux fuel (jsIndex schema "items") targetFields (depth + 1) debug context).1
            else [])
         ++ (if isStrVal (jsIndex schema "type") "object" &&
                !truthy (jsIndex schema "properties") then
              targetFields
            else [])
         ++ (if isObjectLike (jsIndex schema "additionalProperties") then
              (findAux fuel (jsIndex schema "additionalProperties") targetFields
                (depth + 1) debug context).1
            else if isTrueVal (jsIndex schema "additionalProperties") then
              targetFields
            else [])
         ++ ((COMBINED_KEYS.map (fun key =>
              match jsIndex schema key with
              | Json.arr subs =>
                (subs.map (fun sub =>
                  (findAux fuel sub targetFields (depth + 1) debug context).1)).flatten
              | _ => [])).flatten)
         ++ (if isObjectLike (jsIndex schema "patternProperties") then
              ((jsOwnEntries (jsIndex schema "patternProperties")).map
                (fun kv => (findAux fuel kv.2 targetFields (depth + 1) debug context).1)).flatten
            else [])
         ++ (if truthy (jsIndex schema "discriminator") &&
                truthy (jsIndex (jsIndex schema "discriminator") "mapping") then
              targetFields
            else [])
         ++ (if isStrVal (jsIndex schema "type") "object" &&
                !truthy (jsIndex schema "properties") &&
                !truthy (jsIndex schema "additionalProperties") &&
                !truthy (jsIndex schema "patternProperties") then
              targetFields
            else [])),
       (if debug && ctxTruthy context &&
           isObjectLike (jsIndex schema "properties") then
          (targetFields.filter (fun f => jsHasKey (jsIndex schema "properties") f)).map
            (fun f => logFieldDetection (context.path.getD "")
              (context.method.getD "") f
              (context.location.getD Location.response) (decide (depth > 0)))
        else [])
       ++ (if isObjectLike (jsIndex schema "properties") then
            ((jsOwnEntries (jsIndex schema "properties")).map
              (fun kv => (findAux fuel kv.2 targetFields (depth + 1) debug context).2)).flatten
          else [])
       ++ (if truthy (jsIndex schema "items") then
            (findAux fuel (jsIndex schema "items") targetFields (depth + 1) debug context).2
          else [])
       ++ (if debug && ctxTruthy context &&
              (isStrVal (jsIndex schema "type") "object" &&
               !truthy (jsIndex schema "properties")) then
            targetFields.map (fun f => potentialLog context f "dynamic")
          else [])
       ++ (if isObjectLike (jsIndex schema "additionalProperties") then
            (findAux fuel (jsIndex schema "additionalProperties") targetFields
              (depth + 1) debug context).2
          else if debug && ctxTruthy context &&
              isTrueVal (jsIndex schema "additionalProperties") then
            targetFields.map (fun f => potentialLog context f "additional")
          else [])
       ++ ((COMBINED_KEYS.map (fun key =>
            match jsIndex schema key with
            | Json.arr subs =>
              (subs.map (fun sub =>
                (findAux fuel sub targetFields (depth + 1) debug context).2)).flatten
            | _ => [])).flatten)
       ++ (if isObjectLike (jsIndex schema "patternProperties") then
            ((jsOwnEntries (jsIndex schema "patternProperties")).map
              (fun kv => (findAux fuel kv.2 targetFields (depth + 1) debug context).2)).flatten
          else [])
       ++ (if debug && ctxTruthy context &&
              (truthy (jsIndex schema "discriminator") &&
               truthy (jsIndex (jsIndex schema "discriminator") "mapping")) then
            targetFields.map (fun f => potentialLog context f "discriminator")
          else [])
       ++ (if debug && ctxTruthy context &&
              (isStrVal (jsIndex schema "type") "object" &&
               !truthy (jsIndex schema "properties") &&
               !truthy (jsIndex schema "additionalProperties") &&
               !truthy (jsIndex schema "patternProperties")) then
            targetFields.map (fun f => potentialLog context f "freeform")
          else []))

/-- `findFieldsInSchema(schema, targetFields, depth, debug, context)` of
`generate-types.ts`. -/
def findFieldsInSchema (schema : Json) (targetFields : List String)
    (depth : Nat) (debug : Bool) (context : Ctx) :
    List String × List LogEntry :=
  findAux (11 - depth) schema targetFields depth debug context

end GenTypes

namespace SimpleGenTypes

/-! The `src/simple-generate-types.ts` implementation. -/

/-- Remove the first occurrence of the two-character pattern `#/`
(`String.prototype.replace('#/', '')` with a string pattern replaces only
the first occurrence). -/
def stripFirstHashSlash : List Char → List Char
  | [] => []
  | '#' :: '/' :: rest => rest
  | c :: rest => c :: stripFirstHashSlash rest

/-- `String.prototype.split('/')`: splitting never yields the empty list
(the empty string splits to `[""]`). -/
def splitSlash : List Char → List (List Char)
  | [] => [[]]
  | c :: rest =>
    match splitSlash rest with
    | [] => [[]]
    | h :: t => if c = '/' then [] :: h :: t else (c :: h) :: t

/-- `schema.$ref.replace('#/', '').split('/')`: the reference's path
segments. -/
def refSegments (r : String) : List String :=
  (splitSlash (stripFirstHashSlash r.toList)).map (fun cs => String.mk cs)

/-- The resolution loop: walk the document segment by segment, stopping on
the first falsy intermediate value (the source `break`s and the final
`if (resolvedSchema)` test then fails on that same falsy value). -/
def walkRef : Json → List String → Json
  | cur, [] => cur
  | cur, seg :: rest =>
    if truthy (jsIndex cur seg) then walkRef (jsIndex cur seg) rest
    else jsIndex cur seg

/-- `findFieldsInSchema` of `simple-generate-types.ts`, fuel `11 - depth` as
in the other implementation.  `openApiDoc` is the optional document used for
manual `$ref` resolution; the source takes `undefined` when absent, embedded
as `Json.null`.  A truthy non-string `$ref` makes the source throw inside its
`try` block, caught and treated as no contribution. -/
def findAux : Nat → Json → List String → Nat → Json → List String
  | 0, _, _, _, _ => []
  | fuel + 1, schema, targetFields, depth, openApiDoc =>
    if !isObjectLike schema then []
    else
      jsDedup
        ((if truthy (jsIndex schema "$ref") && truthy openApiDoc then
            match jsIndex schema "$ref" with
            | Json.str r =>
              if truthy (walkRef openApiDoc (refSegments r)) then
                findAux fuel (walkRef openApiDoc (refSegments r)) targetFields
                  (depth + 1) openApiDoc
              else []
            | _ => []
          else [])
         ++ (if isObjectLike (jsIndex schema "properties") then
              targetFields.filter (fun f => jsHasKey (jsIndex schema "properties") f)
            else [])
         ++ (if isObjectLike (jsIndex schema "properties") then
              ((jsOwnEntries (jsIndex schema "properties")).map
                (fun kv => findAux fuel kv.2 targetFields (depth + 1) openApiDoc)).flatten
            else [])
         ++ (if truthy (jsIndex schema "items") then
              findAux fuel (jsIndex schema "items") targetFields (depth + 1) openApiDoc
            else [])
         ++ (if isStrVal (jsIndex schema "type") "object" &&
                !truthy (jsIndex schema "properties") then
              targetFields
            else [])
         ++ (if isObjectLike (jsIndex schema "additionalProperties") then
              findAux fuel (jsIndex schema "additionalProperties") targetFields
                (depth + 1) openApiDoc
            else if isTrueVal (jsIndex schema "additionalProperties") then
              targetFields
            else [])
         ++ ((COMBINED_KEYS.map (fun key =>
              match jsIndex schema key with
              | Json.arr subs =>
                (subs.map (fun sub =>
                  findAux fuel sub targetFields (depth + 1) openApiDoc)).flatten
              | _ => [])).flatten))

/-- `findFieldsInSchema(schema, targetFields, depth, openApiDoc)` of
`simple-generate-types.ts`. -/
def findFieldsInSchema (schema : Json) (targetFields : List String)
    (depth : Nat) (openApiDoc : Json) : List String :=
  findAux (11 - depth) schema targetFields depth openApiDoc

end SimpleGenTypes

/-! ## Document model

The scanners and the grouper read the document through the typed surface the
source declares (`OpenAPI.Document`): a `paths` mapping to possibly-null path
items, each a mapping from HTTP method name to an operation carrying `tags`,
`requestBody` and `responses`.  Everything below an operation is untyped
`Json`, exactly as the source accesses it through `as any` casts. -/

/-- An operation object: optional `tags` (absent embeds every falsy value the
source treats alike), and the raw `requestBody` and `responses` values. -/
structure Operation where
  tags : Option (List String)
  requestBody : Json
  responses : Json

/-- A path item: HTTP method name to operation, in insertion order. -/
abbrev PathItem := List (String × Operation)

/-- The root document.  `paths` entries may be null (`if (!pathItem) continue`). -/
structure OpenApiDocument where
  paths : Option (List (String × Option PathItem))

/-- `groups = operation.tags || [DEFAULT_GROUP]` of the scanners: an absent
(falsy) `tags` falls back to the default group, while a present array — the
empty array included, it is truthy — is used as is. -/
def tagsToGroups : Option (List String) → List String
  | some ts => ts
  | none => [DEFAULT_GROUP]

/-- `obj[k] = v` preserving key order, appending a new key at the end
(JavaScript object assignment). -/
def objSet {α : Type} : List (String × α) → String → α → List (String × α)
  | [], k, v => [(k, v)]
  | kv :: rest, k, v =>
    if kv.1 = k then (kv.1, v) :: rest else kv :: objSet rest k v

/-- Update the value at an existing key in place.  The source writes
`m[k].add(x)` only for keys it initialised, so a missing key never occurs. -/
def objModify {α : Type} (o : List (String × α)) (k : String) (g : α → α) :
    List (String × α) :=
  o.map (fun kv => if kv.1 = k then (kv.1, g kv.2) else kv)

/-- `if (!m[k]) m[k] = new Set(); m[k].add(x)`. -/
def objUpsert (o : List (String × List String)) (k x : String) :
    List (String × List String) :=
  match objGet o k with
  | some l => objModify o k (fun _ => setAdd l x)
  | none => o ++ [(k, [x])]

/-- `Object.fromEntries(keys.map(k => [k, v]))` with a constant value. -/
def objFromConst {α : Type} (keys : List String) (v : α) : List (String × α) :=
  keys.foldl (fun o k => objSet o k v) []

namespace GenTypes

/-- The `groupPaths` accumulator of `extractGroupPaths` after the full
path/method walk. -/
def groupPathsAccum (ps : List (String × Option PathItem)) :
    List (String × List String) :=
  ps.foldl (fun acc pEntry =>
    match pEntry.2 with
    | none => acc
    | some pathItem =>
      HTTP_METHODS.foldl (fun acc2 method =>
        match objGet pathItem method with
        | none => acc2
        | some operation =>
          match operation.tags with
          | some ts =>
            if ts.length > 0 then
              ts.foldl (fun acc3 group => objUpsert acc3 group pEntry.1) acc2
            else objUpsert acc2 DEFAULT_GROUP pEntry.1
          | none => objUpsert acc2 DEFAULT_GROUP pEntry.1) acc) []

/-- `extractGroupPaths` of `generate-types.ts` (the copy in
`simple-generate-types.ts` is identical): group paths by the tags of their
operations; an operation whose `tags` is not a non-empty array contributes
its path to the default group. -/
def extractGroupPaths (openApi : OpenApiDocument) : List (String × List String) :=
  match openApi.paths with
  | none => []
  | some ps =>
    (groupPathsAccum ps).map (fun kv => (kv.1, sortStrings kv.2))

/-- The accumulating state of a scanner run: per-field path sets and
per-field per-group path sets. -/
structure ScanState where
  fieldPaths : List (String × List String)
  groupFieldPaths : List (String × List (String × List String))

/-- The returned aggregates after sorting. -/
structure ScanResult where
  fieldPaths : List (String × List String)
  groupFieldPaths : List (String × List (String × List String))

/-- Record one found field: add the path to the field's global set and to the
set of every group of the operation. -/
def addFinding (st : ScanState) (path : String) (groups : List String)
    (f : String) : ScanState :=
  { fieldPaths := objModify st.fieldPaths f (fun l => setAdd l path),
    groupFieldPaths := objModify st.groupFieldPaths f
      (fun inner => groups.foldl (fun i g => objUpsert i g path) inner) }

/-- Scan one media-type object: when its `schema` is truthy, run the finder
(with `debug = true` and the full context, as the source does) and record
every found field. -/
def scanMedia (st : ScanState) (path method : String) (location : Location)
    (groups targetFields : List String) (mediaObj : Json) : ScanState :=
  if truthy (jsIndex mediaObj "schema") then
    ((findFieldsInSchema (jsIndex mediaObj "schema") targetFields 0 true
      ⟨some path, some method, some location⟩).1).foldl
      (fun s f => addFinding s path groups f) st
  else st

/-- Scan one response object: skipped unless both the response and its
`content` are truthy; otherwise every media type is scanned. -/
def scanResponse (st : ScanState) (path method : String)
    (groups targetFields : List String) (resp : Json) : ScanState :=
  if truthy resp && truthy (jsIndex resp "content") then
    (jsOwnEntries (jsIndex resp "content")).foldl
      (fun s kv => scanMedia s path method Location.response groups targetFields kv.2) st
  else st

/-- Scan one operation in response mode: requires truthy `responses`,
computes the groups from `tags`, and scans every response entry. -/
def scanOperationResponses (st : ScanState) (path : String) (method : String)
    (targetFields : List String) (operation : Operation) : ScanState :=
  if truthy operation.responses then
    (jsOwnEntries operation.responses).foldl
      (fun s kv => scanResponse s path method (tagsToGroups operation.tags)
        targetFields kv.2) st
  else st

/-- Scan one operation in request mode: requires truthy `requestBody`, then a
truthy `content`, and scans every media type of the request body. -/
def scanOperationRequest (st : ScanState) (path : String) (method : String)
    (targetFields : List String) (operation : Operation) : ScanState :=
  if truthy operation.requestBody then
    if truthy (jsIndex operation.requestBody "content") then
      (jsOwnEntries (jsIndex operation.requestBody "content")).foldl
        (fun s kv => scanMedia s path method Location.request
          (tagsToGroups operation.tags) targetFields kv.2) st
    else st
  else st

/-- Scan one path item: try the fixed HTTP methods in order. -/
def scanPathItem (scanOp : ScanState → String → String → List String →
      Operation → ScanState)
    (st : ScanState) (path : String) (targetFields : List String)
    (pathItem : PathItem) : ScanState :=
  HTTP_METHODS.foldl (fun s method =>
    match objGet pathItem method with
    | some operation => scanOp s path method targetFields operation
    | none => s) st

/-- The initial state: every requested field mapped to an empty set and an
empty group mapping. -/
def initState (targetFields : List String) : ScanState :=
  ⟨objFromConst targetFields [], objFromConst targetFields []⟩

/-- Sorting pass over the final state (`Array.from(set).sort()` on every
set, iterating the keys of `fieldPaths`). -/
def finalize (st : ScanState) : ScanResult :=
  ⟨st.fieldPaths.map (fun kv => (kv.1, sortStrings kv.2)),
   st.fieldPaths.map (fun kv =>
     (kv.1, ((objGet st.groupFieldPaths kv.1).getD []).map
       (fun gkv => (gkv.1, sortStrings gkv.2))))⟩

/-- The scan shared by both modes: early return on a missing `paths`
(fresh `fromEntries` objects), otherwise fold the whole document and sort. -/
def extractFieldPaths (scanOp : ScanState → String → String → List String →
      Operation → ScanState)
    (openApi : OpenApiDocument) (targetFields : List String) : ScanResult :=
  match openApi.paths with
  | none => ⟨objFromConst targetFields [], objFromConst targetFields []⟩
  | some ps =>
    finalize (ps.foldl (fun s pEntry =>
      match pEntry.2 with
      | none => s
      | some pathItem => scanPathItem scanOp s pEntry.1 targetFields pathItem)
      (initState targetFields))

/-- `extractResponseFieldPaths` of `generate-types.ts`. -/
def extractResponseFieldPaths (openApi : OpenApiDocument)
    (targetFields : List String) : ScanResult :=
  extractFieldPaths scanOperationResponses openApi targetFields

/-- `extractRequestFieldPaths` of `generate-types.ts`. -/
def extractRequestFieldPaths (openApi : OpenApiDocument)
    (targetFields : List String) : ScanResult :=
  extractFieldPaths scanOperationRequest openApi targetFields

end GenTypes

/-! ## Basic lemmas about the list and object helpers -/

theorem lexLe_total : ∀ as bs : List Char, lexLe as bs = true ∨ lexLe bs as = true
  | [], _ => Or.inl rfl
  | _ :: _, [] => Or.inr rfl
  | a :: as, b :: bs => by
    simp only [lexLe]
    rcases Nat.lt_trichotomy a.toNat b.toNat with h | h | h
    · left; simp [h]
    · rcases lexLe_total as bs with ih | ih
      · left; simp [h, ih]
      · right; simp [h.symm, ih]
    · right; simp [h]

theorem lexLe_trans :
    ∀ as bs cs : List Char,
      lexLe as bs = true → lexLe bs cs = true → lexLe as cs = true
  | [], _, _, _, _ => rfl
  | _ :: _, [], _, h1, _ => by simp [lexLe] at h1
  | _ :: _, _ :: _, [], _, h2 => by simp [lexLe] at h2
  | a :: as, b :: bs, c :: cs, h1, h2 => by
    simp only [lexLe] at h1 h2 ⊢
    by_cases hab : a.toNat < b.toNat
    · by_cases hbc : b.toNat < c.toNat
      · simp [Nat.lt_trans hab hbc]
      · by_cases hbc2 : b.toNat = c.toNat
        · simp [← hbc2, hab]
        · simp [hbc, hbc2] at h2
    · by_cases hab2 : a.toNat = b.toNat
      · by_cases hbc : b.toNat < c.toNat
        · simp [hab2, hbc]
        · by_cases hbc2 : b.toNat = c.toNat
          · simp [hab, hab2] at h1
            simp [hbc, hbc2] at h2
            simp [hab2, hbc2, lexLe_trans as bs cs h1 h2]
          · simp [hbc, hbc2] at h2
      · simp [hab, hab2] at h1

instance : IsTotal String (fun a b => strLe a b = true) :=
  ⟨fun a b => lexLe_total a.toList b.toList⟩

instance : IsTrans String (fun a b => strLe a b = true) :=
  ⟨fun _ _ _ h1 h2 => lexLe_trans _ _ _ h1 h2⟩

theorem sortStrings_sorted (l : List String) :
    (sortStrings l).Sorted (fun a b => strLe a b = true) :=
  List.sorted_insertionSort _ l

theorem sortStrings_perm (l : List String) : List.Perm (sortStrings l) l :=
  List.perm_insertionSort _ l

theorem mem_sortStrings {x : String} {l : List String} :
    x ∈ sortStrings l ↔ x ∈ l :=
  (sortStrings_perm l).mem_iff

theorem sortStrings_nodup {l : List String} (h : l.Nodup) :
    (sortStrings l).Nodup :=
  ((sortStrings_perm l).nodup_iff).mpr h

theorem mem_jsDedupAux :
    ∀ (l seen : List String) (x : String),
      x ∈ jsDedupAux l seen ↔ x ∈ l ∧ x ∉ seen
  | [], seen, x => by simp [jsDedupAux]
  | y :: ys, seen, x => by
    by_cases hy : y ∈ seen
    · simp only [jsDedupAux, if_pos hy, mem_jsDedupAux ys seen x, List.mem_cons]
      constructor
      · rintro ⟨h1, h2⟩; exact ⟨Or.inr h1, h2⟩
      · rintro ⟨h1 | h1, h2⟩
        · exact absurd (h1 ▸ hy) h2
        · exact ⟨h1, h2⟩
    · simp only [jsDedupAux, if_neg hy, List.mem_cons, mem_jsDedupAux ys (y :: seen) x]
      by_cases hxy : x = y
      · subst hxy; simp [hy]
      · simp [hxy]

theorem mem_jsDedup {x : String} {l : List String} : x ∈ jsDedup l ↔ x ∈ l := by
  simp [jsDedup, mem_jsDedupAux]

theorem nodup_jsDedupAux : ∀ (l seen : List String), (jsDedupAux l seen).Nodup
  | [], _ => List.nodup_nil
  | y :: ys, seen => by
    by_cases hy : y ∈ seen
    · simpa [jsDedupAux, if_pos hy] using nodup_jsDedupAux ys seen
    · simp only [jsDedupAux, if_neg hy, List.nodup_cons]
      refine ⟨fun hmem => ?_, nodup_jsDedupAux ys (y :: seen)⟩
      exact ((mem_jsDedupAux ys (y :: seen) y).mp hmem).2 (List.mem_cons_self y seen)

theorem jsDedup_nodup (l : List String) : (jsDedup l).Nodup :=
  nodup_jsDedupAux l []

theorem mem_setAdd {y x : String} {l : List String} :
    y ∈ setAdd l x ↔ y ∈ l ∨ y = x := by
  unfold setAdd
  split
  · rename_i h
    constructor
    · exact Or.inl
    · rintro (h1 | rfl)
      · exact h1
      · exact h
  · simp

theorem self_mem_setAdd (l : List String) (x : String) : x ∈ setAdd l x :=
  mem_setAdd.mpr (Or.inr rfl)

theorem setAdd_nodup {l : List String} {x : String} (h : l.Nodup) :
    (setAdd l x).Nodup := by
  unfold setAdd
  split
  · exact h
  · rename_i hx
    simpa [List.nodup_append, hx] using h

theorem objGet_append {α : Type} (o₁ o₂ : List (String × α)) (k : String) :
    objGet (o₁ ++ o₂) k =
      match objGet o₁ k with
      | some v => some v
      | none => objGet o₂ k := by
  induction o₁ with
  | nil => simp [objGet]
  | cons kv rest ih =>
    by_cases hk : kv.1 = k
    · simp [objGet, hk]
    · simp [objGet, hk, ih]

theorem objGet_mem {α : Type} :
    ∀ {o : List (String × α)} {k : String} {v : α},
      objGet o k = some v → (k, v) ∈ o := by
  intro o
  induction o with
  | nil => intro k v h; simp [objGet] at h
  | cons kv rest ih =>
    intro k v h
    by_cases hk : kv.1 = k
    · simp only [objGet, if_pos hk] at h
      injection h with hv
      subst hv
      subst hk
      exact List.mem_cons_self _ _
    · simp only [objGet, if_neg hk] at h
      exact List.mem_cons_of_mem _ (ih h)

theorem objGet_objSet {α : Type} (o : List (String × α)) (k k' : String) (v : α) :
    objGet (objSet o k v) k' = if k' = k then some v else objGet o k' := by
  induction o with
  | nil =>
    by_cases h : k' = k
    · simp [objSet, objGet, h]
    · have h2 : ¬ k = k' := fun hh => h hh.symm
      simp [objSet, objGet, h, h2]
  | cons kv rest ih =>
    by_cases hk : kv.1 = k
    · simp only [objSet, if_pos hk]
      by_cases hk' : kv.1 = k'
      · have h2 : k' = k := by rw [← hk', hk]
        simp [objGet, hk', h2]
      · have h2 : ¬ k' = k := fun hh => hk' (by rw [hh]; exact hk)
        simp [objGet, hk', h2]
    · simp only [objSet, if_neg hk]
      by_cases hk' : kv.1 = k'
      · have h2 : ¬ k' = k := fun hh => hk (by rw [hk']; exact hh)
        simp [objGet, hk', h2]
      · simp [objGet, hk', ih]

theorem objGet_objModify {α : Type} (o : List (String × α)) (k k' : String)
    (g : α → α) :
    objGet (objModify o k g) k' =
      if k' = k then (objGet o k').map g else objGet o k' := by
  induction o with
  | nil => simp [objModify, objGet]
  | cons kv rest ih =>
    simp only [objModify, List.map_cons] at ih ⊢
    by_cases hk : kv.1 = k
    · simp only [if_pos hk]
      by_cases hk' : kv.1 = k'
      · have h2 : k' = k := by rw [← hk', hk]
        simp [objGet, hk', h2]
      · have h2 : ¬ k' = k := fun hh => hk' (by rw [hh]; exact hk)
        simp [objGet, hk', h2, ih]
    · simp only [if_neg hk]
      by_cases hk' : kv.1 = k'
      · have h2 : ¬ k' = k := fun hh => hk (by rw [hk']; exact hh)
        simp [objGet, hk', h2]
      · simp [objGet, hk', ih]

theorem objGet_objUpsert (o : List (String × List String)) (k k' x : String) :
    objGet (objUpsert o k x) k' =
      if k' = k then some (setAdd ((objGet o k).getD []) x)
      else objGet o k' := by
  unfold objUpsert
  cases ho : objGet o k with
  | some l =>
    rw [objGet_objModify]
    by_cases h : k' = k
    · simp [h, ho]
    · simp [h]
  | none =>
    rw [objGet_append]
    by_cases h : k' = k
    · simp [h, ho, objGet, setAdd]
    · simp only [if_neg h]
      cases hg : objGet o k' with
      | some v => simp
      | none =>
        have h2 : ¬ k = k' := fun hh => h hh.symm
        simp [objGet, h2]

theorem objGet_objFromConst {α : Type} (keys : List String) (v : α) (k : String) :
    objGet (objFromConst keys v) k = if k ∈ keys then some v else none := by
  have main :
      ∀ (keys : List String) (o₀ : List (String × α)),
        objGet (keys.foldl (fun o k' => objSet o k' v) o₀) k =
          if k ∈ keys then some v else objGet o₀ k := by
    intro keys
    induction keys with
    | nil => intro o₀; simp
    | cons k' ks ih =>
      intro o₀
      rw [List.foldl_cons, ih]
      by_cases hks : k ∈ ks
      · simp [hks]
      · by_cases hk : k = k'
        · simp [hks, hk, objGet_objSet]
        · simp [hks, hk, objGet_objSet]
  simpa [objFromConst, objGet] using main keys []

theorem foldl_preserve {α β : Type _} (P : β → Prop) (f : β → α → β) :
    ∀ (l : List α) (b : β), P b →
      (∀ b' a, a ∈ l → P b' → P (f b' a)) → P (l.foldl f b)
  | [], b, hb, _ => hb
  | a :: l, b, hb, hstep =>
    foldl_preserve P f l (f b a) (hstep b a (List.mem_cons_self a l) hb)
      (fun b' x hx => hstep b' x (List.mem_cons_of_mem a hx))

theorem foldl_reach {α β : Type _} (I P : β → Prop) (f : β → α → β)
    (l : List α) (a : α) (ha : a ∈ l)
    (hIstep : ∀ b x, x ∈ l → I b → I (f b x))
    (hintro : ∀ b, I b → P (f b a))
    (hPstep : ∀ b x, x ∈ l → P b → P (f b x))
    (b : β) (hb : I b) : P (l.foldl f b) := by
  obtain ⟨s, t, rfl⟩ := List.append_of_mem ha
  rw [List.foldl_append, List.foldl_cons]
  have hIs : I (s.foldl f b) :=
    foldl_preserve I f s b hb (fun b' x hx => hIstep b' x (by simp [hx]))
  have hPa : P (f (s.foldl f b) a) := hintro _ hIs
  exact foldl_preserve P f t _ hPa (fun b' x hx => hPstep b' x (by simp [hx]))


/-- Membership in an if-then-else list, eliminated without dependent matching. -/
theorem mem_ite_elim {α : Type} {c : Prop} [Decidable c] {l1 l2 : List α} {f : α}
    (h : f ∈ (if c then l1 else l2)) : (c ∧ f ∈ l1) ∨ (¬ c ∧ f ∈ l2) := by
  by_cases hc : c
  · rw [if_pos hc] at h; exact Or.inl ⟨hc, h⟩
  · rw [if_neg hc] at h; exact Or.inr ⟨hc, h⟩

theorem mem_ite_nil {α : Type} {c : Prop} [Decidable c] {l : List α} {f : α}
    (h : f ∈ (if c then l else [])) : c ∧ f ∈ l := by
  rcases mem_ite_elim h with ⟨hc, hf⟩ | ⟨_, hf⟩
  · exact ⟨hc, hf⟩
  · exact absurd hf (List.not_mem_nil f)

theorem mem_ite_intro_pos {α : Type} {c : Prop} [Decidable c] {l1 l2 : List α} {f : α}
    (hc : c) (h : f ∈ l1) : f ∈ (if c then l1 else l2) := by rwa [if_pos hc]

theorem mem_ite_intro_neg {α : Type} {c : Prop} [Decidable c] {l1 l2 : List α} {f : α}
    (hc : ¬ c) (h : f ∈ l2) : f ∈ (if c then l1 else l2) := by rwa [if_neg hc]

/-! ## Lemmas about the `generate-types.ts` finder -/

namespace GenTypes

theorem findAux_zero_pair (schema : Json) (t : List String) (d : Nat)
    (dbg : Bool) (c : Ctx) : findAux 0 schema t d dbg c = ([], []) := rfl

/-- Once `depth > 10` the finder returns the empty list. -/
theorem findFieldsInSchema_fst_depth_gt {schema : Json} {t : List String}
    {d : Nat} {dbg : Bool} {c : Ctx} (hd : d > 10) :
    (findFieldsInSchema schema t d dbg c).1 = [] := by
  have h0 : 11 - d = 0 := by omega
  simp [findFieldsInSchema, h0, findAux_zero_pair]

/-- The found fields never depend on the `debug` flag or on the context: those
only feed the log sink. -/
theorem fst_findAux_ignores_log :
    ∀ (fuel : Nat) (schema : Json) (t : List String) (d : Nat)
      (dbg1 : Bool) (c1 : Ctx) (dbg2 : Bool) (c2 : Ctx),
      (findAux fuel schema t d dbg1 c1).1 = (findAux fuel schema t d dbg2 c2).1
  | 0, _, _, _, _, _, _, _ => rfl
  | fuel + 1, schema, t, d, dbg1, c1, dbg2, c2 => by
    by_cases hobj : isObjectLike schema
    · have e : ∀ s' : Json,
          (findAux fuel s' t (d + 1) dbg1 c1).1 =
            (findAux fuel s' t (d + 1) dbg2 c2).1 :=
        fun s' => fst_findAux_ignores_log fuel s' t (d + 1) dbg1 c1 dbg2 c2
      simp only [findAux, hobj, Bool.not_true, Bool.false_eq_true, if_false, e]
    · simp [findAux, hobj]


/-- Every returned field is one of the requested target fields. -/
theorem fst_findAux_subset :
    ∀ (fuel : Nat) (schema : Json) (t : List String) (d : Nat)
      (dbg : Bool) (c : Ctx) (f : String),
      f ∈ (findAux fuel schema t d dbg c).1 → f ∈ t
  | 0, _, _, _, _, _, _, hf => by simp [findAux_zero_pair] at hf
  | fuel + 1, schema, t, d, dbg, c, f, hf => by
    by_cases hobj : isObjectLike schema
    · simp only [findAux, hobj, Bool.not_true, Bool.false_eq_true, if_false] at hf
      rw [mem_jsDedup] at hf
      simp only [List.mem_append] at hf
      rcases hf with ((((((((hf | hf) | hf) | hf) | hf) | hf) | hf) | hf) | hf)
      · exact (List.mem_filter.mp (mem_ite_nil hf).2).1
      · obtain ⟨-, hf⟩ := mem_ite_nil hf
        simp only [List.mem_flatten] at hf
        obtain ⟨l, hl, hfl⟩ := hf
        rw [List.mem_map] at hl
        obtain ⟨kv, hkv, rfl⟩ := hl
        exact fst_findAux_subset fuel kv.2 t (d + 1) dbg c f hfl
      · exact fst_findAux_subset fuel _ t (d + 1) dbg c f (mem_ite_nil hf).2
      · exact (mem_ite_nil hf).2
      · rcases mem_ite_elim hf with ⟨-, hf2⟩ | ⟨-, hf2⟩
        · exact fst_findAux_subset fuel _ t (d + 1) dbg c f hf2
        · exact (mem_ite_nil hf2).2
      · simp only [List.mem_flatten] at hf
        obtain ⟨l, hl, hfl⟩ := hf
        rw [List.mem_map] at hl
        obtain ⟨key, hkey, rfl⟩ := hl
        cases hj : jsIndex schema key with
        | arr subs =>
          rw [hj] at hfl
          simp only [List.mem_flatten] at hfl
          obtain ⟨l2, hl2, hfl2⟩ := hfl
          rw [List.mem_map] at hl2
          obtain ⟨sub, hsub, rfl⟩ := hl2
          exact fst_findAux_subset fuel sub t (d + 1) dbg c f hfl2
        | null => rw [hj] at hfl; simp at hfl
        | bool b => rw [hj] at hfl; simp at hfl
        | num n => rw [hj] at hfl; simp at hfl
        | str s => rw [hj] at hfl; simp at hfl
        | obj fields => rw [hj] at hfl; simp at hfl
      · obtain ⟨-, hf⟩ := mem_ite_nil hf
        simp only [List.mem_flatten] at hf
        obtain ⟨l, hl, hfl⟩ := hf
        rw [List.mem_map] at hl
        obtain ⟨kv, hkv, rfl⟩ := hl
        exact fst_findAux_subset fuel kv.2 t (d + 1) dbg c f hfl
      · exact (mem_ite_nil hf).2
      · exact (mem_ite_nil hf).2
    · simp [findAux, hobj] at hf

/-- The returned field list is duplicate-free (`[...new Set(found)]`). -/
theorem fst_findAux_nodup (fuel : Nat) (schema : Json) (t : List String)
    (d : Nat) (dbg : Bool) (c : Ctx) :
    (findAux fuel schema t d dbg c).1.Nodup := by
  cases fuel with
  | zero => simp [findAux_zero_pair]
  | succ n =>
    by_cases hobj : isObjectLike schema
    · simp only [findAux, hobj, Bool.not_true, Bool.false_eq_true, if_false]
      exact jsDedup_nodup _
    · simp [findAux, hobj]

/-- A target field directly present as a key of `properties` is found. -/
theorem mem_fst_direct {fuel : Nat} {schema : Json} {t : List String} {d : Nat}
    {dbg : Bool} {c : Ctx} {f : String}
    (hobj : isObjectLike schema = true)
    (hp : isObjectLike (jsIndex schema "properties") = true)
    (hf : f ∈ t) (hk : jsHasKey (jsIndex schema "properties") f = true) :
    f ∈ (findAux (fuel + 1) schema t d dbg c).1 := by
  simp only [findAux, hobj, Bool.not_true, Bool.false_eq_true, if_false]
  rw [mem_jsDedup]
  apply List.mem_append_left
  apply List.mem_append_left
  apply List.mem_append_left
  apply List.mem_append_left
  apply List.mem_append_left
  apply List.mem_append_left
  apply List.mem_append_left
  apply List.mem_append_left
  exact mem_ite_intro_pos hp (List.mem_filter.mpr ⟨hf, hk⟩)

/-- Fields found in any value of `properties` are found. -/
theorem mem_fst_prop_child {fuel : Nat} {schema : Json} {t : List String}
    {d : Nat} {dbg : Bool} {c : Ctx} {f : String} {kv : String × Json}
    (hobj : isObjectLike schema = true)
    (hp : isObjectLike (jsIndex schema "properties") = true)
    (hkv : kv ∈ jsOwnEntries (jsIndex schema "properties"))
    (hf : f ∈ (findAux fuel kv.2 t (d + 1) dbg c).1) :
    f ∈ (findAux (fuel + 1) schema t d dbg c).1 := by
  simp only [findAux, hobj, Bool.not_true, Bool.false_eq_true, if_false]
  rw [mem_jsDedup]
  apply List.mem_append_left
  apply List.mem_append_left
  apply List.mem_append_left
  apply List.mem_append_left
  apply List.mem_append_left
  apply List.mem_append_left
  apply List.mem_append_left
  apply List.mem_append_right
  apply mem_ite_intro_pos hp
  rw [List.mem_flatten]
  exact ⟨_, List.mem_map.mpr ⟨kv, hkv, rfl⟩, hf⟩

/-- Fields found in `items` are found. -/
theorem mem_fst_items {fuel : Nat} {schema : Json} {t : List String} {d : Nat}
    {dbg : Bool} {c : Ctx} {f : String}
    (hobj : isObjectLike schema = true)
    (hi : truthy (jsIndex schema "items") = true)
    (hf : f ∈ (findAux fuel (jsIndex schema "items") t (d + 1) dbg c).1) :
    f ∈ (findAux (fuel + 1) schema t d dbg c).1 := by
  simp only [findAux, hobj, Bool.not_true, Bool.false_eq_true, if_false]
  rw [mem_jsDedup]
  apply List.mem_append_left
  apply List.mem_append_left
  apply List.mem_append_left
  apply List.mem_append_left
  apply List.mem_append_left
  apply List.mem_append_left
  apply List.mem_append_right
  exact mem_ite_intro_pos hi hf

/-- A `{type: "object"}` node with falsy `properties` contributes all target
fields. -/
theorem mem_fst_dynamic {fuel : Nat} {schema : Json} {t : List String} {d : Nat}
    {dbg : Bool} {c : Ctx} {f : String}
    (hobj : isObjectLike schema = true)
    (hty : isStrVal (jsIndex schema "type") "object" = true)
    (hp : truthy (jsIndex schema "properties") = false)
    (hf : f ∈ t) :
    f ∈ (findAux (fuel + 1) schema t d dbg c).1 := by
  simp only [findAux, hobj, Bool.not_true, Bool.false_eq_true, if_false]
  rw [mem_jsDedup]
  apply List.mem_append_left
  apply List.mem_append_left
  apply List.mem_append_left
  apply List.mem_append_left
  apply List.mem_append_left
  apply List.mem_append_right
  apply mem_ite_intro_pos _ hf
  simp [hty, hp]

/-- `additionalProperties === true` contributes all target fields. -/
theorem mem_fst_apTrue {fuel : Nat} {schema : Json} {t : List String} {d : Nat}
    {dbg : Bool} {c : Ctx} {f : String}
    (hobj : isObjectLike schema = true)
    (hap : jsIndex schema "additionalProperties" = Json.bool true)
    (hf : f ∈ t) :
    f ∈ (findAux (fuel + 1) schema t d dbg c).1 := by
  simp only [findAux, hobj, Bool.not_true, Bool.false_eq_true, if_false]
  rw [mem_jsDedup]
  apply List.mem_append_left
  apply List.mem_append_left
  apply List.mem_append_left
  apply List.mem_append_left
  apply List.mem_append_right
  rw [hap]
  exact mem_ite_intro_neg (by simp [isObjectLike])
    (mem_ite_intro_pos (by simp [isTrueVal]) hf)

/-- A `discriminator` with a truthy `mapping` contributes all target fields. -/
theorem mem_fst_discriminator {fuel : Nat} {schema : Json} {t : List String}
    {d : Nat} {dbg : Bool} {c : Ctx} {f : String}
    (hobj : isObjectLike schema = true)
    (hd : truthy (jsIndex schema "discriminator") = true)
    (hm : truthy (jsIndex (jsIndex schema "discriminator") "mapping") = true)
    (hf : f ∈ t) :
    f ∈ (findAux (fuel + 1) schema t d dbg c).1 := by
  simp only [findAux, hobj, Bool.not_true, Bool.false_eq_true, if_false]
  rw [mem_jsDedup]
  apply List.mem_append_left
  apply List.mem_append_right
  apply mem_ite_intro_pos _ hf
  simp [hd, hm]

/-- Fields found in a member of `allOf`, `oneOf` or `anyOf` are found. -/
theorem mem_fst_combined {fuel : Nat} {schema : Json} {t : List String}
    {d : Nat} {dbg : Bool} {c : Ctx} {f : String} {key : String}
    {subs : List Json} {sub : Json}
    (hobj : isObjectLike schema = true)
    (hkey : key ∈ COMBINED_KEYS)
    (harr : jsIndex schema key = Json.arr subs)
    (hsub : sub ∈ subs)
    (hf : f ∈ (findAux fuel sub t (d + 1) dbg c).1) :
    f ∈ (findAux (fuel + 1) schema t d dbg c).1 := by
  simp only [findAux, hobj, Bool.not_true, Bool.false_eq_true, if_false]
  rw [mem_jsDedup]
  apply List.mem_append_left
  apply List.mem_append_left
  apply List.mem_append_left
  apply List.mem_append_right
  rw [List.mem_flatten]
  refine ⟨_, List.mem_map.mpr ⟨key, hkey, rfl⟩, ?_⟩
  rw [harr]
  rw [List.mem_flatten]
  exact ⟨_, List.mem_map.mpr ⟨sub, hsub, rfl⟩, hf⟩

end GenTypes

/-! ## Lemmas about the `simple-generate-types.ts` finder -/

theorem objGet_filterNe {α : Type} :
    ∀ (fields : List (String × α)) (k k' : String),
      objGet (fields.filter (fun kv => decide (kv.1 ≠ k))) k' =
        if k' = k then none else objGet fields k'
  | [], k, k' => by by_cases h : k' = k <;> simp [objGet, h]
  | kv :: rest, k, k' => by
    by_cases hkv : kv.1 = k
    · have hfilter : (decide (kv.1 ≠ k)) = false := by simp [hkv]
      rw [List.filter_cons, hfilter]
      simp only [Bool.false_eq_true, if_false]
      rw [objGet_filterNe rest k k']
      by_cases h : k' = k
      · simp [h]
      · have h2 : ¬ kv.1 = k' := fun hh => h (by rw [← hh, hkv])
        simp [objGet, h, h2]
    · have hfilter : (decide (kv.1 ≠ k)) = true := by simp [hkv]
      have hstep : (kv :: rest).filter (fun kv => decide (kv.1 ≠ k)) =
          kv :: rest.filter (fun kv => decide (kv.1 ≠ k)) := by
        rw [List.filter_cons, hfilter]
        simp
      rw [hstep]
      by_cases hk' : kv.1 = k'
      · have h : ¬ k' = k := fun hh => hkv (by rw [hk', hh])
        simp [objGet, hk', h]
      · simp only [objGet, if_neg hk']
        rw [objGet_filterNe rest k k']

/-- Delete a key from an object value, leaving every other value unchanged. -/
def removeKey (j : Json) (k : String) : Json :=
  match j with
  | Json.obj fields => Json.obj (fields.filter (fun kv => decide (kv.1 ≠ k)))
  | other => other

theorem jsIndex_removeKey_obj (fields : List (String × Json)) (k k' : String) :
    jsIndex (removeKey (Json.obj fields) k) k' =
      if k' = k then Json.null else jsIndex (Json.obj fields) k' := by
  simp only [removeKey, jsIndex, jsProp, objGet_filterNe]
  by_cases h : k' = k <;> simp [h]

namespace SimpleGenTypes

theorem findAux_zero_list (schema : Json) (t : List String) (d : Nat)
    (doc : Json) : findAux 0 schema t d doc = [] := rfl

/-- Once `depth > 10` the finder returns the empty list. -/
theorem findFieldsInSchema_depth_gt {schema : Json} {t : List String} {d : Nat}
    {doc : Json} (hd : d > 10) : findFieldsInSchema schema t d doc = [] := by
  have h0 : 11 - d = 0 := by omega
  simp [findFieldsInSchema, h0, findAux_zero_list]

/-- Every returned field is one of the requested target fields. -/
theorem findAux_subset :
    ∀ (fuel : Nat) (schema : Json) (t : List String) (d : Nat) (doc : Json)
      (f : String), f ∈ findAux fuel schema t d doc → f ∈ t
  | 0, _, _, _, _, _, hf => by simp [findAux_zero_list] at hf
  | fuel + 1, schema, t, d, doc, f, hf => by
    by_cases hobj : isObjectLike schema
    · simp only [findAux, hobj, Bool.not_true, Bool.false_eq_true, if_false] at hf
      rw [mem_jsDedup] at hf
      simp only [List.mem_append] at hf
      rcases hf with ((((((hf | hf) | hf) | hf) | hf) | hf) | hf)
      · obtain ⟨-, hf⟩ := mem_ite_nil hf
        cases hr : jsIndex schema "$ref" with
        | str r =>
          rw [hr] at hf
          obtain ⟨-, hf⟩ := mem_ite_nil hf
          exact findAux_subset fuel _ t (d + 1) doc f hf
        | null => rw [hr] at hf; simp at hf
        | bool b => rw [hr] at hf; simp at hf
        | num n => rw [hr] at hf; simp at hf
        | arr elems => rw [hr] at hf; simp at hf
        | obj fields => rw [hr] at hf; simp at hf
      · exact (List.mem_filter.mp (mem_ite_nil hf).2).1
      · obtain ⟨-, hf⟩ := mem_ite_nil hf
        simp only [List.mem_flatten] at hf
        obtain ⟨l, hl, hfl⟩ := hf
        rw [List.mem_map] at hl
        obtain ⟨kv, hkv, rfl⟩ := hl
        exact findAux_subset fuel kv.2 t (d + 1) doc f hfl
      · exact findAux_subset fuel _ t (d + 1) doc f (mem_ite_nil hf).2
      · exact (mem_ite_nil hf).2
      · rcases mem_ite_elim hf with ⟨-, hf2⟩ | ⟨-, hf2⟩
        · exact findAux_subset fuel _ t (d + 1) doc f hf2
        · exact (mem_ite_nil hf2).2
      · simp only [List.mem_flatten] at hf
        obtain ⟨l, hl, hfl⟩ := hf
        rw [List.mem_map] at hl
        obtain ⟨key, hkey, rfl⟩ := hl
        cases hj : jsIndex schema key with
        | arr subs =>
          rw [hj] at hfl
          simp only [List.mem_flatten] at hfl
          obtain ⟨l2, hl2, hfl2⟩ := hfl
          rw [List.mem_map] at hl2
          obtain ⟨sub, hsub, rfl⟩ := hl2
          exact findAux_subset fuel sub t (d + 1) doc f hfl2
        | null => rw [hj] at hfl; simp at hfl
        | bool b => rw [hj] at hfl; simp at hfl
        | num n => rw [hj] at hfl; simp at hfl
        | str s => rw [hj] at hfl; simp at hfl
        | obj fields => rw [hj] at hfl; simp at hfl
    · simp [findAux, hobj] at hf

/-- The returned field list is duplicate-free. -/
theorem findAux_nodup (fuel : Nat) (schema : Json) (t : List String) (d : Nat)
    (doc : Json) : (findAux fuel schema t d doc).Nodup := by
  cases fuel with
  | zero => simp [findAux_zero_list]
  | succ n =>
    by_cases hobj : isObjectLike schema
    · simp only [findAux, hobj, Bool.not_true, Bool.false_eq_true, if_false]
      exact jsDedup_nodup _
    · simp [findAux, hobj]

/-- When the `$ref` of a node resolves to a truthy value, the fields found in
the resolved node are included. -/
theorem mem_findAux_ref {fuel : Nat} {schema : Json} {t : List String}
    {d : Nat} {doc : Json} {r : String} {f : String}
    (hobj : isObjectLike schema = true)
    (href : jsIndex schema "$ref" = Json.str r)
    (hr : r ≠ "")
    (hdoc : truthy doc = true)
    (hwalk : truthy (walkRef doc (refSegments r)) = true)
    (hf : f ∈ findAux fuel (walkRef doc (refSegments r)) t (d + 1) doc) :
    f ∈ findAux (fuel + 1) schema t d doc := by
  simp only [findAux, hobj, Bool.not_true, Bool.false_eq_true, if_false]
  rw [mem_jsDedup]
  apply List.mem_append_left
  apply List.mem_append_left
  apply List.mem_append_left
  apply List.mem_append_left
  apply List.mem_append_left
  apply List.mem_append_left
  apply mem_ite_intro_pos
  · rw [href]
    have h1 : truthy (Json.str r) = true := by simp [truthy, hr]
    rw [h1, hdoc]
    rfl
  · rw [href]
    exact mem_ite_intro_pos hwalk hf

end SimpleGenTypes

namespace SimpleGenTypes

/-- When the walk over the reference's segments ends on a falsy value, the
`$ref` contributes nothing: deleting the key leaves the result unchanged. -/
theorem findAux_refFail (fuel : Nat) (fields : List (String × Json))
    (t : List String) (d : Nat) (doc : Json) (r : String)
    (href : jsIndex (Json.obj fields) "$ref" = Json.str r)
    (hfail : truthy (walkRef doc (refSegments r)) = false) :
    findAux (fuel + 1) (Json.obj fields) t d doc =
      findAux (fuel + 1) (removeKey (Json.obj fields) "$ref") t d doc := by
  have hobj1 : isObjectLike (Json.obj fields) = true := rfl
  have hobj2 : isObjectLike (removeKey (Json.obj fields) "$ref") = true := rfl
  have hne : ∀ key : String, ¬ key = "$ref" →
      jsIndex (removeKey (Json.obj fields) "$ref") key =
        jsIndex (Json.obj fields) key := by
    intro key h
    rw [jsIndex_removeKey_obj]
    simp [h]
  have hrefR : jsIndex (removeKey (Json.obj fields) "$ref") "$ref" = Json.null := by
    rw [jsIndex_removeKey_obj]
    simp
  have hnull : truthy Json.null = false := rfl
  simp only [findAux, hobj1, hobj2, Bool.not_true, Bool.false_eq_true, if_false,
    COMBINED_KEYS, List.map_cons, List.map_nil]
  rw [hne "properties" (by decide), hne "items" (by decide),
    hne "type" (by decide), hne "additionalProperties" (by decide),
    hne "allOf" (by decide), hne "oneOf" (by decide), hne "anyOf" (by decide),
    hrefR, href]
  simp only [hfail, Bool.false_eq_true, if_false, hnull, Bool.false_and, ite_self]

end SimpleGenTypes

/-! ## Lemmas about the scanners and the grouper -/

theorem objModify_keys {α : Type} (o : List (String × α)) (k : String)
    (g : α → α) : (objModify o k g).map Prod.fst = o.map Prod.fst := by
  induction o with
  | nil => rfl
  | cons kv rest ih =>
    simp only [objModify, List.map_cons] at ih ⊢
    by_cases hk : kv.1 = k
    · simp [hk, ih]
    · simp [hk, ih]

theorem objGet_isSome_iff {α : Type} :
    ∀ (o : List (String × α)) (k : String),
      (objGet o k).isSome = true ↔ k ∈ o.map Prod.fst
  | [], k => by simp [objGet]
  | kv :: rest, k => by
    by_cases hk : kv.1 = k
    · simp [objGet, hk]
    · have h2 : ¬ k = kv.1 := fun hh => hk hh.symm
      simp [objGet, hk, h2, objGet_isSome_iff rest k]

theorem objModify_forall {α : Type} (P : α → Prop) (o : List (String × α))
    (k : String) (g : α → α)
    (h : ∀ kv ∈ o, P kv.2) (hg : ∀ a, P a → P (g a)) :
    ∀ kv ∈ objModify o k g, P kv.2 := by
  intro kv' hkv'
  simp only [objModify, List.mem_map] at hkv'
  obtain ⟨kv, hkv, rfl⟩ := hkv'
  by_cases hk : kv.1 = k
  · simp only [hk, if_pos rfl]
    exact hg _ (h kv hkv)
  · simp only [if_neg hk]
    exact h kv hkv

theorem objUpsert_forall (P : List String → Prop)
    (o : List (String × List String)) (k x : String)
    (h : ∀ kv ∈ o, P kv.2)
    (hP : ∀ l, P l → P (setAdd l x)) (hnil : P (setAdd [] x)) :
    ∀ kv ∈ objUpsert o k x, P kv.2 := by
  unfold objUpsert
  cases ho : objGet o k with
  | some l =>
    exact objModify_forall P o k _ h (fun _ _ => hP l (h _ (objGet_mem ho)))
  | none =>
    intro kv hkv
    rcases List.mem_append.mp hkv with hkv | hkv
    · exact h kv hkv
    · rcases List.mem_singleton.mp hkv with rfl
      simpa [setAdd] using hnil

/-- Lookup through a map that rewrites each value as a function of the key
and the old value. -/
theorem objGet_map_keyed {α β : Type} (h : String → α → β) :
    ∀ (o : List (String × α)) (k : String),
      objGet (o.map (fun kv => (kv.1, h kv.1 kv.2))) k =
        (objGet o k).map (h k)
  | [], k => rfl
  | kv :: rest, k => by
    by_cases hk : kv.1 = k
    · subst hk
      simp [objGet]
    · simp [objGet, hk, objGet_map_keyed h rest k]

theorem objSet_keys {α : Type} :
    ∀ (o : List (String × α)) (k : String) (v : α),
      (objSet o k v).map Prod.fst =
        if k ∈ o.map Prod.fst then o.map Prod.fst else o.map Prod.fst ++ [k]
  | [], k, v => by simp [objSet]
  | kv :: rest, k, v => by
    by_cases hk : kv.1 = k
    · simp [objSet, hk]
    · have h2 : ¬ k = kv.1 := fun hh => hk hh.symm
      by_cases hmem : k ∈ rest.map Prod.fst
      · simp [objSet, hk, h2, hmem, objSet_keys rest k v]
      · simp [objSet, hk, h2, hmem, objSet_keys rest k v]

theorem objFromConst_keys {α β : Type} (keys : List String) (v : α) (w : β) :
    (objFromConst keys v).map Prod.fst = (objFromConst keys w).map Prod.fst := by
  have aux :
      ∀ (keys : List String) (o₁ : List (String × α)) (o₂ : List (String × β)),
        o₁.map Prod.fst = o₂.map Prod.fst →
        (keys.foldl (fun o k => objSet o k v) o₁).map Prod.fst =
          (keys.foldl (fun o k => objSet o k w) o₂).map Prod.fst := by
    intro keys
    induction keys with
    | nil => intro o₁ o₂ h; simpa using h
    | cons k ks ih =>
      intro o₁ o₂ h
      simp only [List.foldl_cons]
      exact ih _ _ (by rw [objSet_keys, objSet_keys, h])
  exact aux keys [] [] rfl

theorem objSet_mem {α : Type} :
    ∀ (o : List (String × α)) (k : String) (v : α) (kv : String × α),
      kv ∈ objSet o k v → kv ∈ o ∨ kv.2 = v
  | [], k, v, kv => by
    intro h
    rcases List.mem_singleton.mp h with rfl
    exact Or.inr rfl
  | kv' :: rest, k, v, kv => by
    intro h
    by_cases hk : kv'.1 = k
    · simp only [objSet, if_pos hk] at h
      rcases List.mem_cons.mp h with rfl | h
      · exact Or.inr rfl
      · exact Or.inl (List.mem_cons_of_mem _ h)
    · simp only [objSet, if_neg hk] at h
      rcases List.mem_cons.mp h with rfl | h
      · exact Or.inl (List.mem_cons_self _ _)
      · rcases objSet_mem rest k v kv h with h | h
        · exact Or.inl (List.mem_cons_of_mem _ h)
        · exact Or.inr h

theorem objFromConst_forall {α : Type} (P : α → Prop) (keys : List String)
    (v : α) (hv : P v) : ∀ kv ∈ objFromConst keys v, P kv.2 := by
  refine foldl_preserve
    (fun (o : List (String × α)) => ∀ kv ∈ o, P kv.2) _ keys [] (by simp) ?_
  intro o k _ ho kv hkv
  rcases objSet_mem o k v kv hkv with h | h
  · exact ho kv h
  · rw [h]; exact hv

namespace GenTypes

/-- The invariant of a scanner run: the two maps share their key list, every
target field has an entry, and every accumulated path set is duplicate-free. -/
def ScanInv (targets : List String) (st : ScanState) : Prop :=
  st.fieldPaths.map Prod.fst = st.groupFieldPaths.map Prod.fst ∧
  (∀ f ∈ targets, (objGet st.fieldPaths f).isSome = true) ∧
  (∀ kv ∈ st.fieldPaths, kv.2.Nodup) ∧
  (∀ kv ∈ st.groupFieldPaths, ∀ gkv ∈ kv.2, gkv.2.Nodup)

theorem scanInv_gfp_isSome {targets : List String} {st : ScanState} {f : String}
    (hinv : ScanInv targets st) (hf : f ∈ targets) :
    (objGet st.groupFieldPaths f).isSome = true := by
  rw [objGet_isSome_iff, ← hinv.1, ← objGet_isSome_iff]
  exact hinv.2.1 f hf

theorem scanInv_initState (targets : List String) :
    ScanInv targets (initState targets) := by
  refine ⟨objFromConst_keys targets _ _, ?_, ?_, ?_⟩
  · intro f hf
    simp only [initState]
    rw [objGet_objFromConst, if_pos hf]
    rfl
  · exact objFromConst_forall _ targets _ List.nodup_nil
  · exact objFromConst_forall
      (fun (inner : List (String × List String)) => ∀ gkv ∈ inner, gkv.2.Nodup)
      targets _ (by simp)

theorem scanInv_addFinding {targets : List String} {st : ScanState}
    {path : String} {groups : List String} {f : String}
    (hinv : ScanInv targets st) :
    ScanInv targets (addFinding st path groups f) := by
  obtain ⟨hkeys, hsome, hn1, hn2⟩ := hinv
  refine ⟨?_, ?_, ?_, ?_⟩
  · simp [addFinding, objModify_keys, hkeys]
  · intro f' hf'
    simp only [addFinding, objGet_objModify]
    by_cases h : f' = f
    · simp [h, Option.isSome_map]
      simpa [h] using hsome f' hf'
    · simp [h]
      exact hsome f' hf'
  · exact objModify_forall _ _ _ _ hn1 (fun l hl => setAdd_nodup hl)
  · simp only [addFinding]
    refine objModify_forall
      (fun (inner : List (String × List String)) => ∀ gkv ∈ inner, gkv.2.Nodup)
      _ _ _ hn2 ?_
    intro inner hinner
    refine foldl_preserve
      (fun (i : List (String × List String)) => ∀ gkv ∈ i, gkv.2.Nodup)
      _ groups inner hinner ?_
    intro i g _ hi
    exact objUpsert_forall List.Nodup i g path hi
      (fun l hl => setAdd_nodup hl) (setAdd_nodup List.nodup_nil)

theorem scanInv_scanMedia {targets : List String} {st : ScanState}
    {path method : String} {location : Location} {groups : List String}
    {mediaObj : Json} (hinv : ScanInv targets st) :
    ScanInv targets (scanMedia st path method location groups targets mediaObj) := by
  unfold scanMedia
  split
  · exact foldl_preserve (ScanInv targets) _ _ st hinv
      (fun st' f _ h => scanInv_addFinding h)
  · exact hinv

theorem scanInv_scanResponse {targets : List String} {st : ScanState}
    {path method : String} {groups : List String} {resp : Json}
    (hinv : ScanInv targets st) :
    ScanInv targets (scanResponse st path method groups targets resp) := by
  unfold scanResponse
  split
  · exact foldl_preserve (ScanInv targets) _ _ st hinv
      (fun st' kv _ h => scanInv_scanMedia h)
  · exact hinv

theorem scanInv_scanOperationResponses {targets : List String} {st : ScanState}
    {path method : String} {operation : Operation} (hinv : ScanInv targets st) :
    ScanInv targets (scanOperationResponses st path method targets operation) := by
  unfold scanOperationResponses
  split
  · exact foldl_preserve (ScanInv targets) _ _ st hinv
      (fun st' kv _ h => scanInv_scanResponse h)
  · exact hinv

theorem scanInv_scanOperationRequest {targets : List String} {st : ScanState}
    {path method : String} {operation : Operation} (hinv : ScanInv targets st) :
    ScanInv targets (scanOperationRequest st path method targets operation) := by
  unfold scanOperationRequest
  split
  · split
    · exact foldl_preserve (ScanInv targets) _ _ st hinv
        (fun st' kv _ h => scanInv_scanMedia h)
    · exact hinv
  · exact hinv

theorem scanInv_scanPathItem {targets : List String} {st : ScanState}
    {path : String} {pathItem : PathItem}
    {scanOp : ScanState → String → String → List String → Operation → ScanState}
    (hscan : ∀ st' p m op, ScanInv targets st' →
      ScanInv targets (scanOp st' p m targets op))
    (hinv : ScanInv targets st) :
    ScanInv targets (scanPathItem scanOp st path targets pathItem) := by
  unfold scanPathItem
  refine foldl_preserve (ScanInv targets) _ _ st hinv ?_
  intro st' method _ h
  cases objGet pathItem method with
  | some op => exact hscan st' path method op h
  | none => exact h

theorem scanInv_fold {targets : List String}
    {scanOp : ScanState → String → String → List String → Operation → ScanState}
    (hscan : ∀ st' p m op, ScanInv targets st' →
      ScanInv targets (scanOp st' p m targets op))
    (ps : List (String × Option PathItem)) (st : ScanState)
    (hinv : ScanInv targets st) :
    ScanInv targets (ps.foldl (fun s pEntry =>
      match pEntry.2 with
      | none => s
      | some pathItem => scanPathItem scanOp s pEntry.1 targets pathItem) st) := by
  refine foldl_preserve (ScanInv targets) _ _ st hinv ?_
  intro st' pEntry _ h
  cases pEntry.2 with
  | none => exact h
  | some pathItem => exact scanInv_scanPathItem hscan h

/-- The path `p` is recorded in the bucket of group `g` for field `f`. -/
def MemG (f g p : String) (st : ScanState) : Prop :=
  ∃ inner l, objGet st.groupFieldPaths f = some inner ∧
    objGet inner g = some l ∧ p ∈ l

theorem memG_inner_upsert {inner : List (String × List String)}
    {g : String} {l : List String} {p g' x : String}
    (h : objGet inner g = some l) (hp : p ∈ l) :
    ∃ l', objGet (objUpsert inner g' x) g = some l' ∧ p ∈ l' := by
  rw [objGet_objUpsert]
  by_cases hg : g = g'
  · subst hg
    rw [if_pos rfl, h]
    exact ⟨_, rfl, mem_setAdd.mpr (Or.inl hp)⟩
  · rw [if_neg hg]
    exact ⟨l, h, hp⟩

theorem memG_addFinding {f g p : String} {st : ScanState} {path : String}
    {groups : List String} {f' : String} (h : MemG f g p st) :
    MemG f g p (addFinding st path groups f') := by
  obtain ⟨inner, l, h1, h2, h3⟩ := h
  simp only [MemG, addFinding, objGet_objModify]
  by_cases hf : f = f'
  · rw [if_pos hf, h1]
    have : ∃ l', objGet (groups.foldl (fun i g' => objUpsert i g' path) inner) g =
        some l' ∧ p ∈ l' := by
      refine foldl_preserve
        (fun (i : List (String × List String)) =>
          ∃ l', objGet i g = some l' ∧ p ∈ l') _ groups inner ⟨l, h2, h3⟩ ?_
      intro i g' _ ⟨l', hl', hp'⟩
      exact memG_inner_upsert hl' hp'
    obtain ⟨l', hl', hp'⟩ := this
    exact ⟨_, l', rfl, hl', hp'⟩
  · rw [if_neg hf]
    exact ⟨inner, l, h1, h2, h3⟩

theorem addFinding_memG {f g : String} {st : ScanState} {path : String}
    {groups : List String}
    (hsome : (objGet st.groupFieldPaths f).isSome = true) (hg : g ∈ groups) :
    MemG f g path (addFinding st path groups f) := by
  obtain ⟨inner, hinner⟩ := Option.isSome_iff_exists.mp hsome
  simp only [MemG, addFinding, objGet_objModify, if_pos rfl, hinner, Option.map_some]
  have : ∃ l, objGet (groups.foldl (fun i g' => objUpsert i g' path) inner) g =
      some l ∧ path ∈ l := by
    refine foldl_reach (fun _ => True)
      (fun (i : List (String × List String)) =>
        ∃ l, objGet i g = some l ∧ path ∈ l)
      _ groups g hg (fun _ _ _ _ => trivial) ?_ ?_ inner trivial
    · intro i _
      rw [objGet_objUpsert, if_pos rfl]
      exact ⟨_, rfl, self_mem_setAdd _ _⟩
    · intro i g' _ ⟨l, hl, hp⟩
      exact memG_inner_upsert hl hp
  obtain ⟨l, hl, hp⟩ := this
  exact ⟨_, l, rfl, hl, hp⟩

theorem memG_scanMedia {f g p : String} {st : ScanState} {path method : String}
    {location : Location} {groups targets : List String} {mediaObj : Json}
    (h : MemG f g p st) :
    MemG f g p (scanMedia st path method location groups targets mediaObj) := by
  unfold scanMedia
  split
  · exact foldl_preserve (MemG f g p) _ _ st h
      (fun st' f' _ h' => memG_addFinding h')
  · exact h

theorem memG_scanResponse {f g p : String} {st : ScanState}
    {path method : String} {groups targets : List String} {resp : Json}
    (h : MemG f g p st) :
    MemG f g p (scanResponse st path method groups targets resp) := by
  unfold scanResponse
  split
  · exact foldl_preserve (MemG f g p) _ _ st h
      (fun st' kv _ h' => memG_scanMedia h')
  · exact h

theorem memG_scanOperationResponses {f g p : String} {st : ScanState}
    {path method : String} {targets : List String} {operation : Operation}
    (h : MemG f g p st) :
    MemG f g p (scanOperationResponses st path method targets operation) := by
  unfold scanOperationResponses
  split
  · exact foldl_preserve (MemG f g p) _ _ st h
      (fun st' kv _ h' => memG_scanResponse h')
  · exact h

theorem memG_scanOperationRequest {f g p : String} {st : ScanState}
    {path method : String} {targets : List String} {operation : Operation}
    (h : MemG f g p st) :
    MemG f g p (scanOperationRequest st path method targets operation) := by
  unfold scanOperationRequest
  split
  · split
    · exact foldl_preserve (MemG f g p) _ _ st h
        (fun st' kv _ h' => memG_scanMedia h')
    · exact h
  · exact h

theorem memG_scanPathItem {f g p : String} {st : ScanState} {path : String}
    {targets : List String} {pathItem : PathItem}
    {scanOp : ScanState → String → String → List String → Operation → ScanState}
    (hpres : ∀ st' p' m' op, MemG f g p st' →
      MemG f g p (scanOp st' p' m' targets op))
    (h : MemG f g p st) :
    MemG f g p (scanPathItem scanOp st path targets pathItem) := by
  unfold scanPathItem
  refine foldl_preserve (MemG f g p) _ _ st h ?_
  intro st' method _ h'
  cases objGet pathItem method with
  | some op => exact hpres st' path method op h'
  | none => exact h'

theorem scanMedia_memG {f g : String} {st : ScanState} {path method : String}
    {location : Location} {groups targets : List String} {mediaObj : Json}
    (hinv : ScanInv targets st)
    (hschema : truthy (jsIndex mediaObj "schema") = true)
    (hf : f ∈ (findFieldsInSchema (jsIndex mediaObj "schema") targets 0 true
      ⟨some path, some method, some location⟩).1)
    (hg : g ∈ groups) :
    MemG f g path (scanMedia st path method location groups targets mediaObj) := by
  have hft : f ∈ targets := fst_findAux_subset (11 - 0) _ targets 0 _ _ f hf
  unfold scanMedia
  rw [if_pos hschema]
  refine foldl_reach (ScanInv targets) (MemG f g path) _ _ f hf
    (fun st' f' _ h' => scanInv_addFinding h') ?_
    (fun st' f' _ h' => memG_addFinding h') st hinv
  intro st' hinv'
  exact addFinding_memG (scanInv_gfp_isSome hinv' hft) hg

theorem scanResponse_memG {f g : String} {st : ScanState} {path method : String}
    {groups targets : List String} {resp : Json} {mv : String × Json}
    (hinv : ScanInv targets st)
    (hresp : truthy resp = true)
    (hcontent : truthy (jsIndex resp "content") = true)
    (hmv : mv ∈ jsOwnEntries (jsIndex resp "content"))
    (hschema : truthy (jsIndex mv.2 "schema") = true)
    (hf : f ∈ (findFieldsInSchema (jsIndex mv.2 "schema") targets 0 true
      ⟨some path, some method, some Location.response⟩).1)
    (hg : g ∈ groups) :
    MemG f g path (scanResponse st path method groups targets resp) := by
  unfold scanResponse
  rw [if_pos (by rw [hresp, hcontent]; rfl)]
  refine foldl_reach (ScanInv targets) (MemG f g path) _ _ mv hmv
    (fun st' kv _ h' => scanInv_scanMedia h') ?_
    (fun st' kv _ h' => memG_scanMedia h') st hinv
  intro st' hinv'
  exact scanMedia_memG hinv' hschema hf hg

theorem scanOperationResponses_memG {f g : String} {st : ScanState}
    {path method : String} {targets : List String} {operation : Operation}
    {rv mv : String × Json}
    (hinv : ScanInv targets st)
    (hrs : truthy operation.responses = true)
    (hrv : rv ∈ jsOwnEntries operation.responses)
    (hresp : truthy rv.2 = true)
    (hcontent : truthy (jsIndex rv.2 "content") = true)
    (hmv : mv ∈ jsOwnEntries (jsIndex rv.2 "content"))
    (hschema : truthy (jsIndex mv.2 "schema") = true)
    (hf : f ∈ (findFieldsInSchema (jsIndex mv.2 "schema") targets 0 true
      ⟨some path, some method, some Location.response⟩).1)
    (hg : g ∈ tagsToGroups operation.tags) :
    MemG f g path (scanOperationResponses st path method targets operation) := by
  unfold scanOperationResponses
  rw [if_pos hrs]
  refine foldl_reach (ScanInv targets) (MemG f g path) _ _ rv hrv
    (fun st' kv _ h' => scanInv_scanResponse h') ?_
    (fun st' kv _ h' => memG_scanResponse h') st hinv
  intro st' hinv'
  exact scanResponse_memG hinv' hresp hcontent hmv hschema hf hg

theorem scanOperationRequest_memG {f g : String} {st : ScanState}
    {path method : String} {targets : List String} {operation : Operation}
    {mv : String × Json}
    (hinv : ScanInv targets st)
    (hrb : truthy operation.requestBody = true)
    (hcontent : truthy (jsIndex operation.requestBody "content") = true)
    (hmv : mv ∈ jsOwnEntries (jsIndex operation.requestBody "content"))
    (hschema : truthy (jsIndex mv.2 "schema") = true)
    (hf : f ∈ (findFieldsInSchema (jsIndex mv.2 "schema") targets 0 true
      ⟨some path, some method, some Location.request⟩).1)
    (hg : g ∈ tagsToGroups operation.tags) :
    MemG f g path (scanOperationRequest st path method targets operation) := by
  unfold scanOperationRequest
  rw [if_pos hrb, if_pos hcontent]
  refine foldl_reach (ScanInv targets) (MemG f g path) _ _ mv hmv
    (fun st' kv _ h' => scanInv_scanMedia h') ?_
    (fun st' kv _ h' => memG_scanMedia h') st hinv
  intro st' hinv'
  exact scanMedia_memG hinv' hschema hf hg

theorem scanPathItem_memG {f g : String} {st : ScanState} {path method : String}
    {targets : List String} {pathItem : PathItem} {op : Operation}
    {scanOp : ScanState → String → String → List String → Operation → ScanState}
    (hscanInv : ∀ st' p' m' op', ScanInv targets st' →
      ScanInv targets (scanOp st' p' m' targets op'))
    (hpres : ∀ st' p' m' op', MemG f g path st' →
      MemG f g path (scanOp st' p' m' targets op'))
    (hinv : ScanInv targets st)
    (hm : method ∈ HTTP_METHODS)
    (hop : objGet pathItem method = some op)
    (hintro : ∀ st', ScanInv targets st' →
      MemG f g path (scanOp st' path method targets op)) :
    MemG f g path (scanPathItem scanOp st path targets pathItem) := by
  unfold scanPathItem
  refine foldl_reach (ScanInv targets) (MemG f g path) _ _ method hm
    ?_ ?_ ?_ st hinv
  · intro st' m' _ h'
    cases objGet pathItem m' with
    | some op' => exact hscanInv st' path m' op' h'
    | none => exact h'
  · intro st' hinv'
    rw [hop]
    exact hintro st' hinv'
  · intro st' m' _ h'
    cases objGet pathItem m' with
    | some op' => exact hpres st' path m' op' h'
    | none => exact h'

theorem objGet_map_pairs {β : Type} (F : String → β) :
    ∀ (o : List (String × List String)) (k : String),
      objGet (o.map (fun kv => (kv.1, F kv.1))) k =
        (objGet o k).map (fun _ => F k)
  | [], k => rfl
  | kv :: rest, k => by
    by_cases hk : kv.1 = k
    · subst hk
      simp [objGet]
    · simp [objGet, hk, objGet_map_pairs F rest k]

theorem objGet_finalize_fieldPaths (st : ScanState) (k : String) :
    objGet (finalize st).fieldPaths k = (objGet st.fieldPaths k).map sortStrings :=
  objGet_map_keyed (fun _ v => sortStrings v) st.fieldPaths k

theorem objGet_finalize_gfp (st : ScanState) (k : String) :
    objGet (finalize st).groupFieldPaths k =
      (objGet st.fieldPaths k).map (fun _ =>
        ((objGet st.groupFieldPaths k).getD []).map
          (fun gkv => (gkv.1, sortStrings gkv.2))) :=
  objGet_map_pairs
    (fun k' => ((objGet st.groupFieldPaths k').getD []).map
      (fun (gkv : String × List String) => (gkv.1, sortStrings gkv.2)))
    st.fieldPaths k

theorem objGet_map_sortStrings (o : List (String × List String)) (k : String) :
    objGet (o.map (fun kv => (kv.1, sortStrings kv.2))) k =
      (objGet o k).map sortStrings :=
  objGet_map_keyed (fun _ v => sortStrings v) o k

theorem finalize_memG {st : ScanState} {f g p : String}
    (hkeys : st.fieldPaths.map Prod.fst = st.groupFieldPaths.map Prod.fst)
    (h : MemG f g p st) :
    ∃ inner l, objGet (finalize st).groupFieldPaths f = some inner ∧
      objGet inner g = some l ∧ p ∈ l := by
  obtain ⟨inner, l, h1, h2, h3⟩ := h
  have hfSome : (objGet st.fieldPaths f).isSome = true := by
    rw [objGet_isSome_iff, hkeys, ← objGet_isSome_iff, h1]
    rfl
  obtain ⟨l0, hl0⟩ := Option.isSome_iff_exists.mp hfSome
  rw [objGet_finalize_gfp, hl0]
  refine ⟨((objGet st.groupFieldPaths f).getD []).map
    (fun (gkv : String × List String) => (gkv.1, sortStrings gkv.2)),
    sortStrings l, rfl, ?_, mem_sortStrings.mpr h3⟩
  rw [h1, Option.getD_some, objGet_map_sortStrings, h2]
  rfl

theorem finalize_fieldPaths_sorted_nodup {st : ScanState} {f : String}
    {l : List String} (hnodup : ∀ kv ∈ st.fieldPaths, kv.2.Nodup)
    (h : objGet (finalize st).fieldPaths f = some l) :
    l.Sorted (fun a b => strLe a b = true) ∧ l.Nodup := by
  rw [objGet_finalize_fieldPaths] at h
  cases hl0 : objGet st.fieldPaths f with
  | none => rw [hl0] at h; simp at h
  | some l0 =>
    rw [hl0] at h
    have h' : sortStrings l0 = l := by
      simpa using h
    subst h'
    exact ⟨sortStrings_sorted l0, sortStrings_nodup (hnodup _ (objGet_mem hl0))⟩

theorem finalize_gfp_sorted_nodup {st : ScanState} {f g : String}
    {inner : List (String × List String)} {l : List String}
    (hnodup : ∀ kv ∈ st.groupFieldPaths, ∀ gkv ∈ kv.2, gkv.2.Nodup)
    (hf : objGet (finalize st).groupFieldPaths f = some inner)
    (hg : objGet inner g = some l) :
    l.Sorted (fun a b => strLe a b = true) ∧ l.Nodup := by
  rw [objGet_finalize_gfp] at hf
  cases hl0 : objGet st.fieldPaths f with
  | none => rw [hl0] at hf; simp at hf
  | some l0 =>
    rw [hl0] at hf
    have hf' : ((objGet st.groupFieldPaths f).getD []).map
        (fun gkv => (gkv.1, sortStrings gkv.2)) = inner := by
      simpa using hf
    subst hf'
    rw [objGet_map_sortStrings] at hg
    cases hg1 : objGet ((objGet st.groupFieldPaths f).getD []) g with
    | none => rw [hg1] at hg; simp at hg
    | some l1 =>
      rw [hg1] at hg
      have hg' : sortStrings l1 = l := by
        simpa using hg
      subst hg'
      cases hinner0 : objGet st.groupFieldPaths f with
      | none => rw [hinner0] at hg1; simp [objGet] at hg1
      | some inner0 =>
        rw [hinner0, Option.getD_some] at hg1
        have hmem1 : (g, l1) ∈ inner0 := objGet_mem hg1
        have hmem2 : (f, inner0) ∈ st.groupFieldPaths := objGet_mem hinner0
        exact ⟨sortStrings_sorted l1,
          sortStrings_nodup (hnodup _ hmem2 _ hmem1)⟩

/-- Master membership lemma for the response scanner: a field found by the
finder in some response media-type schema puts the path into the bucket of
every group of the operation. -/
theorem extractResponseFieldPaths_group_mem {openApi : OpenApiDocument}
    {targets : List String} {ps : List (String × Option PathItem)}
    {path method : String} {pathItem : PathItem} {op : Operation}
    {rv mv : String × Json} {f g : String}
    (hps : openApi.paths = some ps)
    (hentry : (path, some pathItem) ∈ ps)
    (hm : method ∈ HTTP_METHODS)
    (hop : objGet pathItem method = some op)
    (hrs : truthy op.responses = true)
    (hrv : rv ∈ jsOwnEntries op.responses)
    (hresp : truthy rv.2 = true)
    (hcontent : truthy (jsIndex rv.2 "content") = true)
    (hmv : mv ∈ jsOwnEntries (jsIndex rv.2 "content"))
    (hschema : truthy (jsIndex mv.2 "schema") = true)
    (hf : f ∈ (findFieldsInSchema (jsIndex mv.2 "schema") targets 0 true
      ⟨some path, some method, some Location.response⟩).1)
    (hg : g ∈ tagsToGroups op.tags) :
    ∃ inner l,
      objGet (extractResponseFieldPaths openApi targets).groupFieldPaths f =
        some inner ∧ objGet inner g = some l ∧ path ∈ l := by
  have heq : extractResponseFieldPaths openApi targets =
      finalize (ps.foldl (fun s pEntry =>
        match pEntry.2 with
        | none => s
        | some pathItem => scanPathItem scanOperationResponses s pEntry.1 targets
            pathItem) (initState targets)) := by
    unfold extractResponseFieldPaths extractFieldPaths
    rw [hps]
  rw [heq]
  have hfold : MemG f g path (ps.foldl (fun s pEntry =>
      match pEntry.2 with
      | none => s
      | some pathItem => scanPathItem scanOperationResponses s pEntry.1 targets
          pathItem) (initState targets)) := by
    refine foldl_reach (ScanInv targets) (MemG f g path) _ _ (path, some pathItem)
      hentry ?_ ?_ ?_ (initState targets) (scanInv_initState targets)
    · intro st' pv _ h'
      cases pv.2 with
      | none => exact h'
      | some pitem =>
        show ScanInv targets (scanPathItem scanOperationResponses st' pv.1 targets pitem)
        exact scanInv_scanPathItem
          (fun st'' p' m' op' h'' => scanInv_scanOperationResponses h'') h'
    · intro st' hinv'
      show MemG f g path (scanPathItem scanOperationResponses st' path targets pathItem)
      exact scanPathItem_memG
        (fun st'' p' m' op' h'' => scanInv_scanOperationResponses h'')
        (fun st'' p' m' op' h'' => memG_scanOperationResponses h'')
        hinv' hm hop
        (fun st'' hinv'' =>
          scanOperationResponses_memG hinv'' hrs hrv hresp hcontent hmv hschema hf hg)
    · intro st' pv _ h'
      cases pv.2 with
      | none => exact h'
      | some pitem =>
        show MemG f g path (scanPathItem scanOperationResponses st' pv.1 targets pitem)
        exact memG_scanPathItem
          (fun st'' p' m' op' h'' => memG_scanOperationResponses h'') h'
  have hinvFold := @scanInv_fold targets scanOperationResponses
    (fun st'' p' m' op' h'' => scanInv_scanOperationResponses h'') ps
    (initState targets) (scanInv_initState targets)
  exact finalize_memG hinvFold.1 hfold

/-- Master membership lemma for the request scanner. -/
theorem extractRequestFieldPaths_group_mem {openApi : OpenApiDocument}
    {targets : List String} {ps : List (String × Option PathItem)}
    {path method : String} {pathItem : PathItem} {op : Operation}
    {mv : String × Json} {f g : String}
    (hps : openApi.paths = some ps)
    (hentry : (path, some pathItem) ∈ ps)
    (hm : method ∈ HTTP_METHODS)
    (hop : objGet pathItem method = some op)
    (hrb : truthy op.requestBody = true)
    (hcontent : truthy (jsIndex op.requestBody "content") = true)
    (hmv : mv ∈ jsOwnEntries (jsIndex op.requestBody "content"))
    (hschema : truthy (jsIndex mv.2 "schema") = true)
    (hf : f ∈ (findFieldsInSchema (jsIndex mv.2 "schema") targets 0 true
      ⟨some path, some method, some Location.request⟩).1)
    (hg : g ∈ tagsToGroups op.tags) :
    ∃ inner l,
      objGet (extractRequestFieldPaths openApi targets).groupFieldPaths f =
        some inner ∧ objGet inner g = some l ∧ path ∈ l := by
  have heq : extractRequestFieldPaths openApi targets =
      finalize (ps.foldl (fun s pEntry =>
        match pEntry.2 with
        | none => s
        | some pathItem => scanPathItem scanOperationRequest s pEntry.1 targets
            pathItem) (initState targets)) := by
    unfold extractRequestFieldPaths extractFieldPaths
    rw [hps]
  rw [heq]
  have hfold : MemG f g path (ps.foldl (fun s pEntry =>
      match pEntry.2 with
      | none => s
      | some pathItem => scanPathItem scanOperationRequest s pEntry.1 targets
          pathItem) (initState targets)) := by
    refine foldl_reach (ScanInv targets) (MemG f g path) _ _ (path, some pathItem)
      hentry ?_ ?_ ?_ (initState targets) (scanInv_initState targets)
    · intro st' pv _ h'
      cases pv.2 with
      | none => exact h'
      | some pitem =>
        show ScanInv targets (scanPathItem scanOperationRequest st' pv.1 targets pitem)
        exact scanInv_scanPathItem
          (fun st'' p' m' op' h'' => scanInv_scanOperationRequest h'') h'
    · intro st' hinv'
      show MemG f g path (scanPathItem scanOperationRequest st' path targets pathItem)
      exact scanPathItem_memG
        (fun st'' p' m' op' h'' => scanInv_scanOperationRequest h'')
        (fun st'' p' m' op' h'' => memG_scanOperationRequest h'')
        hinv' hm hop
        (fun st'' hinv'' =>
          scanOperationRequest_memG hinv'' hrb hcontent hmv hschema hf hg)
    · intro st' pv _ h'
      cases pv.2 with
      | none => exact h'
      | some pitem =>
        show MemG f g path (scanPathItem scanOperationRequest st' pv.1 targets pitem)
        exact memG_scanPathItem
          (fun st'' p' m' op' h'' => memG_scanOperationRequest h'') h'
  have hinvFold := @scanInv_fold targets scanOperationRequest
    (fun st'' p' m' op' h'' => scanInv_scanOperationRequest h'') ps
    (initState targets) (scanInv_initState targets)
  exact finalize_memG hinvFold.1 hfold

theorem groupPathsAccum_nodup (ps : List (String × Option PathItem)) :
    ∀ kv ∈ groupPathsAccum ps, kv.2.Nodup := by
  unfold groupPathsAccum
  refine foldl_preserve
    (fun (o : List (String × List String)) => ∀ kv ∈ o, kv.2.Nodup)
    _ ps [] (by simp) ?_
  intro acc pEntry _ hacc
  cases pEntry.2 with
  | none => exact hacc
  | some pathItem =>
    show ∀ kv ∈ HTTP_METHODS.foldl (fun acc2 method =>
      match objGet pathItem method with
      | none => acc2
      | some operation =>
        match operation.tags with
        | some ts =>
          if ts.length > 0 then
            ts.foldl (fun acc3 group => objUpsert acc3 group pEntry.1) acc2
          else objUpsert acc2 DEFAULT_GROUP pEntry.1
        | none => objUpsert acc2 DEFAULT_GROUP pEntry.1) acc, kv.2.Nodup
    refine foldl_preserve
      (fun (o : List (String × List String)) => ∀ kv ∈ o, kv.2.Nodup)
      _ HTTP_METHODS acc hacc ?_
    intro acc2 method _ hacc2
    cases objGet pathItem method with
    | none => exact hacc2
    | some operation =>
      show ∀ kv ∈ (match operation.tags with
        | some ts =>
          if ts.length > 0 then
            ts.foldl (fun acc3 group => objUpsert acc3 group pEntry.1) acc2
          else objUpsert acc2 DEFAULT_GROUP pEntry.1
        | none => objUpsert acc2 DEFAULT_GROUP pEntry.1), kv.2.Nodup
      cases operation.tags with
      | none =>
        exact objUpsert_forall _ _ _ _ hacc2 (fun l hl => setAdd_nodup hl)
          (setAdd_nodup List.nodup_nil)
      | some ts =>
        show ∀ kv ∈ (if ts.length > 0 then
            ts.foldl (fun acc3 group => objUpsert acc3 group pEntry.1) acc2
          else objUpsert acc2 DEFAULT_GROUP pEntry.1), kv.2.Nodup
        split
        · refine foldl_preserve
            (fun (o : List (String × List String)) => ∀ kv ∈ o, kv.2.Nodup)
            _ ts acc2 hacc2 ?_
          intro acc3 group _ hacc3
          exact objUpsert_forall _ _ _ _ hacc3 (fun l hl => setAdd_nodup hl)
            (setAdd_nodup List.nodup_nil)
        · exact objUpsert_forall _ _ _ _ hacc2 (fun l hl => setAdd_nodup hl)
            (setAdd_nodup List.nodup_nil)

/-- Every list produced by the path grouper is sorted and duplicate-free. -/
theorem extractGroupPaths_sorted_nodup {openApi : OpenApiDocument} {g : String}
    {l : List String} (h : objGet (extractGroupPaths openApi) g = some l) :
    l.Sorted (fun a b => strLe a b = true) ∧ l.Nodup := by
  cases hps : openApi.paths with
  | none =>
    have heq : extractGroupPaths openApi = [] := by
      unfold extractGroupPaths
      rw [hps]
    rw [heq] at h
    simp [objGet] at h
  | some ps =>
    have heq : extractGroupPaths openApi =
        (groupPathsAccum ps).map (fun kv => (kv.1, sortStrings kv.2)) := by
      unfold extractGroupPaths
      rw [hps]
    rw [heq, objGet_map_sortStrings] at h
    cases hl0 : objGet (groupPathsAccum ps) g with
    | none => rw [hl0] at h; simp at h
    | some l0 =>
      rw [hl0] at h
      have h' : sortStrings l0 = l := by simpa using h
      subst h'
      exact ⟨sortStrings_sorted l0,
        sortStrings_nodup (groupPathsAccum_nodup ps _ (objGet_mem hl0))⟩

/-- Sorted/dedup guarantees for the scanners, via the run invariant. -/
theorem extractFieldPaths_sorted_nodup {openApi : OpenApiDocument}
    {targets : List String}
    {scanOp : ScanState → String → String → List String → Operation → ScanState}
    (hscan : ∀ st' p m op, ScanInv targets st' →
      ScanInv targets (scanOp st' p m targets op)) :
    (∀ f l, objGet (extractFieldPaths scanOp openApi targets).fieldPaths f =
        some l → l.Sorted (fun a b => strLe a b = true) ∧ l.Nodup) ∧
    (∀ f inner g l,
        objGet (extractFieldPaths scanOp openApi targets).groupFieldPaths f =
          some inner → objGet inner g = some l →
        l.Sorted (fun a b => strLe a b = true) ∧ l.Nodup) := by
  cases hps : openApi.paths with
  | none =>
    have heq : extractFieldPaths scanOp openApi targets =
        ⟨objFromConst targets [], objFromConst targets []⟩ := by
      unfold extractFieldPaths
      rw [hps]
    rw [heq]
    constructor
    · intro f l h
      simp only at h
      rw [objGet_objFromConst] at h
      by_cases hmem : f ∈ targets
      · rw [if_pos hmem] at h
        injection h with h
        subst h
        exact ⟨List.sorted_nil, List.nodup_nil⟩
      · rw [if_neg hmem] at h
        cases h
    · intro f inner g l h1 h2
      simp only at h1
      rw [objGet_objFromConst] at h1
      by_cases hmem : f ∈ targets
      · rw [if_pos hmem] at h1
        injection h1 with h1
        subst h1
        simp [objGet] at h2
      · rw [if_neg hmem] at h1
        cases h1
  | some ps =>
    have heq : extractFieldPaths scanOp openApi targets =
        finalize (ps.foldl (fun s pEntry =>
          match pEntry.2 with
          | none => s
          | some pathItem => scanPathItem scanOp s pEntry.1 targets pathItem)
          (initState targets)) := by
      unfold extractFieldPaths
      rw [hps]
    rw [heq]
    have hinvFold := @scanInv_fold targets scanOp hscan ps
      (initState targets) (scanInv_initState targets)
    constructor
    · intro f l h
      exact finalize_fieldPaths_sorted_nodup hinvFold.2.2.1 h
    · intro f inner g l h1 h2
      exact finalize_gfp_sorted_nodup hinvFold.2.2.2 h1 h2

/-- Early return of both scanners on a document with no `paths`. -/
theorem extractFieldPaths_noPaths {openApi : OpenApiDocument}
    {targets : List String}
    (scanOp : ScanState → String → String → List String → Operation → ScanState)
    (hps : openApi.paths = none) :
    extractFieldPaths scanOp openApi targets =
      ⟨objFromConst targets [], objFromConst targets []⟩ := by
  unfold extractFieldPaths
  rw [hps]

/-- The bucket of group `g` for field `f` in a scan result contains `path`. -/
def GroupBucketContains (res : ScanResult) (f g path : String) : Prop :=
  ∃ inner l, objGet res.groupFieldPaths f = some inner ∧
    objGet inner g = some l ∧ path ∈ l

end GenTypes

/-! ## Concrete documents used by counterexamples and witnesses -/

/-- `{properties: {email: {type: "string"}}}`. -/
def exSchemaEmail : Json :=
  Json.obj [("properties", Json.obj [("email", Json.obj [("type", Json.str "string")])])]

/-- A `content` mapping with one `application/json` media object whose
schema is `exSchemaEmail`. -/
def exMediaJson : Json :=
  Json.obj [("application/json", Json.obj [("schema", exSchemaEmail)])]

/-- A `responses` value with one `200` response whose `application/json`
schema is `exSchemaEmail`. -/
def exResponses : Json :=
  Json.obj [("200", Json.obj [("content", exMediaJson)])]

/-- A `requestBody` value whose `application/json` schema is `exSchemaEmail`. -/
def exRequestBody : Json := Json.obj [("content", exMediaJson)]

/-- A GET operation with an explicitly empty `tags` array. -/
def exOpEmptyTags : Operation := ⟨some [], Json.null, exResponses⟩

/-- Document with a single path `/a` whose GET operation has `tags: []`. -/
def exDocEmptyTags : OpenApiDocument := ⟨some [("/a", some [("get", exOpEmptyTags)])]⟩

/-- A GET operation tagged `["auth", "users"]`. -/
def exOpTwoTags : Operation := ⟨some ["auth", "users"], Json.null, exResponses⟩

/-- Document with a single path `/login` tagged `["auth", "users"]`. -/
def exDocTwoTags : OpenApiDocument :=
  ⟨some [("/login", some [("get", exOpTwoTags)])]⟩

/-- An untagged GET operation. -/
def exOpNoTags : Operation := ⟨none, Json.null, exResponses⟩

/-- Document with a single path `/a` whose GET operation has no `tags`. -/
def exDocNoTags : OpenApiDocument := ⟨some [("/a", some [("get", exOpNoTags)])]⟩

/-- An untagged POST operation carrying a request body. -/
def exOpRequest : Operation := ⟨none, exRequestBody, Json.null⟩

/-- Document with a single path `/b` whose POST operation has a request body. -/
def exDocRequest : OpenApiDocument := ⟨some [("/b", some [("post", exOpRequest)])]⟩

/-- Document with no `paths`. -/
def exDocNoPaths : OpenApiDocument := ⟨none⟩

/-- A self-referential schema: `properties.self` refers back to the node via
`#/components/schemas/Self`. -/
def exSelfRefSchema : Json :=
  Json.obj [("properties", Json.obj
    [("email", Json.obj [("type", Json.str "string")]),
     ("self", Json.obj [("$ref", Json.str "#/components/schemas/Self")])])]

/-- The document holding `exSelfRefSchema` under `#/components/schemas/Self`. -/
def exSelfRefDoc : Json :=
  Json.obj [("components", Json.obj [("schemas", Json.obj
    [("Self", exSelfRefSchema)])])]

/-- A schema whose `$ref` is the empty string. -/
def exEmptyRefSchema : Json := Json.obj [("$ref", Json.str "")]

/-- A document with an empty-string key, on which the one-segment walk of the
empty reference resolves to a schema containing `email`. -/
def exEmptyRefDoc : Json := Json.obj [("", exSchemaEmail)]

/-- A schema with a `$ref` that resolves in `exRefDoc`. -/
def exRefSchema : Json := Json.obj [("$ref", Json.str "#/components/schemas/A")]

/-- A document defining `#/components/schemas/A` with an `email` property. -/
def exRefDoc : Json :=
  Json.obj [("components", Json.obj [("schemas", Json.obj [("A", exSchemaEmail)])])]

/-- A document where `#/components/schemas/A` does not resolve. -/
def exRefDocMissing : Json :=
  Json.obj [("components", Json.obj [("schemas", Json.obj [("B", exSchemaEmail)])])]

/-! ## Claims -/

/-- C3: both finders track a depth counter and return the empty set once the
depth argument exceeds 10; consequently the scan of any schema graph — the
self-referential `properties.self` schema included — terminates (the
embeddings are total functions) and returns the fields discoverable within
the depth ceiling. -/
theorem claim_C3_depth_bound :
    (∀ (schema : Json) (t : List String) (d : Nat) (dbg : Bool)
      (c : GenTypes.Ctx), d > 10 →
      (GenTypes.findFieldsInSchema schema t d dbg c).1 = []) ∧
    (∀ (schema : Json) (t : List String) (d : Nat) (doc : Json), d > 10 →
      SimpleGenTypes.findFieldsInSchema schema t d doc = []) ∧
    SimpleGenTypes.findFieldsInSchema exSelfRefSchema ["email", "missing"] 0
      exSelfRefDoc = ["email"] :=
  ⟨fun _ _ _ _ _ hd => GenTypes.findFieldsInSchema_fst_depth_gt hd,
   fun _ _ _ _ hd => SimpleGenTypes.findFieldsInSchema_depth_gt hd,
   by decide⟩

/-- Witness for C3 at depth 11. -/
theorem claim_C3_depth_bound_witness :
    (GenTypes.findFieldsInSchema exSchemaEmail ["email"] 11 false
      ⟨none, none, none⟩).1 = [] ∧
    SimpleGenTypes.findFieldsInSchema exSchemaEmail ["email"] 11 Json.null = [] :=
  ⟨claim_C3_depth_bound.1 exSchemaEmail ["email"] 11 false ⟨none, none, none⟩
    (by decide),
   claim_C3_depth_bound.2.1 exSchemaEmail ["email"] 11 Json.null (by decide)⟩

/-- C10: the set of fields returned by the `generate-types.ts` finder is the
same with `debug = true` and any context as with `debug = false` and the
empty context: the log sink does not interfere with the computed result. -/
theorem claim_C10_log_noninterference (schema : Json) (t : List String)
    (d : Nat) (c : GenTypes.Ctx) :
    (GenTypes.findFieldsInSchema schema t d true c).1 =
      (GenTypes.findFieldsInSchema schema t d false ⟨none, none, none⟩).1 :=
  GenTypes.fst_findAux_ignores_log (11 - d) schema t d true c false
    ⟨none, none, none⟩

/-- C9: both finders return a duplicate-free list whose elements all belong
to the requested target-field list. -/
theorem claim_C9_set_and_subset (schema : Json) (t : List String) (d : Nat)
    (dbg : Bool) (c : GenTypes.Ctx) (doc : Json) :
    ((GenTypes.findFieldsInSchema schema t d dbg c).1.Nodup ∧
      ∀ f ∈ (GenTypes.findFieldsInSchema schema t d dbg c).1, f ∈ t) ∧
    ((SimpleGenTypes.findFieldsInSchema schema t d doc).Nodup ∧
      ∀ f ∈ SimpleGenTypes.findFieldsInSchema schema t d doc, f ∈ t) :=
  ⟨⟨GenTypes.fst_findAux_nodup (11 - d) schema t d dbg c,
    fun f hf => GenTypes.fst_findAux_subset (11 - d) schema t d dbg c f hf⟩,
   ⟨SimpleGenTypes.findAux_nodup (11 - d) schema t d doc,
    fun f hf => SimpleGenTypes.findAux_subset (11 - d) schema t d doc f hf⟩⟩

/-- Witness for C9: the membership hypotheses discharged on concrete runs. -/
theorem claim_C9_set_and_subset_witness :
    ("email" ∈ ["email", "missing"]) ∧ ("email" ∈ ["email"]) :=
  ⟨(claim_C9_set_and_subset exSchemaEmail ["email", "missing"] 0 false
      ⟨none, none, none⟩ Json.null).1.2 "email" (by decide),
   (claim_C9_set_and_subset exSelfRefSchema ["email"] 0 false
      ⟨none, none, none⟩ exSelfRefDoc).2.2 "email" (by decide)⟩

/-- C5: the `generate-types.ts` finder reports all target fields on a
`{type: "object"}` node with none of `properties`, `additionalProperties`,
`patternProperties`; likewise when `additionalProperties` is literally
`true` or a `discriminator` with a `mapping` is present. -/
theorem claim_C5_conservative (schema : Json) (t : List String) (d : Nat)
    (dbg : Bool) (c : GenTypes.Ctx)
    (hobj : isObjectLike schema = true) (hd : d ≤ 10) :
    ((isStrVal (jsIndex schema "type") "object" = true ∧
      truthy (jsIndex schema "properties") = false ∧
      truthy (jsIndex schema "additionalProperties") = false ∧
      truthy (jsIndex schema "patternProperties") = false) →
      ∀ f ∈ t, f ∈ (GenTypes.findFieldsInSchema schema t d dbg c).1) ∧
    (jsIndex schema "additionalProperties" = Json.bool true →
      ∀ f ∈ t, f ∈ (GenTypes.findFieldsInSchema schema t d dbg c).1) ∧
    ((truthy (jsIndex schema "discriminator") = true ∧
      truthy (jsIndex (jsIndex schema "discriminator") "mapping") = true) →
      ∀ f ∈ t, f ∈ (GenTypes.findFieldsInSchema schema t d dbg c).1) := by
  have hfuel : 11 - d = (10 - d) + 1 := by omega
  refine ⟨?_, ?_, ?_⟩
  · rintro ⟨hty, hp, -, -⟩ f hf
    show f ∈ (GenTypes.findAux (11 - d) schema t d dbg c).1
    rw [hfuel]
    exact GenTypes.mem_fst_dynamic hobj hty hp hf
  · intro hap f hf
    show f ∈ (GenTypes.findAux (11 - d) schema t d dbg c).1
    rw [hfuel]
    exact GenTypes.mem_fst_apTrue hobj hap hf
  · rintro ⟨hdisc, hmap⟩ f hf
    show f ∈ (GenTypes.findAux (11 - d) schema t d dbg c).1
    rw [hfuel]
    exact GenTypes.mem_fst_discriminator hobj hdisc hmap hf

/-- Witness for C5 on three concrete schemas. -/
theorem claim_C5_conservative_witness :
    ("x" ∈ (GenTypes.findFieldsInSchema (Json.obj [("type", Json.str "object")])
      ["x"] 0 false ⟨none, none, none⟩).1) ∧
    ("x" ∈ (GenTypes.findFieldsInSchema
      (Json.obj [("additionalProperties", Json.bool true)])
      ["x"] 0 false ⟨none, none, none⟩).1) ∧
    ("x" ∈ (GenTypes.findFieldsInSchema
      (Json.obj [("discriminator", Json.obj [("mapping", Json.obj [])])])
      ["x"] 0 false ⟨none, none, none⟩).1) :=
  ⟨(claim_C5_conservative (Json.obj [("type", Json.str "object")]) ["x"] 0 false
      ⟨none, none, none⟩ rfl (by omega)).1 ⟨rfl, rfl, rfl, rfl⟩ "x" (by decide),
   (claim_C5_conservative (Json.obj [("additionalProperties", Json.bool true)])
      ["x"] 0 false ⟨none, none, none⟩ rfl (by omega)).2.1 rfl "x" (by decide),
   (claim_C5_conservative
      (Json.obj [("discriminator", Json.obj [("mapping", Json.obj [])])])
      ["x"] 0 false ⟨none, none, none⟩ rfl (by omega)).2.2 ⟨rfl, rfl⟩ "x"
      (by decide)⟩

/-- C6: a target field directly present as a key of `properties` is found,
and fields found in any value of `properties`, in `items`, or in any member
of `allOf`, `oneOf` or `anyOf` are also found. -/
theorem claim_C6_matching (schema : Json) (t : List String) (d : Nat)
    (dbg : Bool) (c : GenTypes.Ctx) (f : String)
    (hobj : isObjectLike schema = true) (hd : d ≤ 10) :
    ((isObjectLike (jsIndex schema "properties") = true → f ∈ t →
      jsHasKey (jsIndex schema "properties") f = true →
      f ∈ (GenTypes.findFieldsInSchema schema t d dbg c).1)) ∧
    (∀ kv : String × Json, isObjectLike (jsIndex schema "properties") = true →
      kv ∈ jsOwnEntries (jsIndex schema "properties") →
      f ∈ (GenTypes.findFieldsInSchema kv.2 t (d + 1) dbg c).1 →
      f ∈ (GenTypes.findFieldsInSchema schema t d dbg c).1) ∧
    (truthy (jsIndex schema "items") = true →
      f ∈ (GenTypes.findFieldsInSchema (jsIndex schema "items") t (d + 1) dbg c).1 →
      f ∈ (GenTypes.findFieldsInSchema schema t d dbg c).1) ∧
    (∀ (key : String) (subs : List Json) (sub : Json), key ∈ COMBINED_KEYS →
      jsIndex schema key = Json.arr subs → sub ∈ subs →
      f ∈ (GenTypes.findFieldsInSchema sub t (d + 1) dbg c).1 →
      f ∈ (GenTypes.findFieldsInSchema schema t d dbg c).1) := by
  have hfuel : 11 - d = (10 - d) + 1 := by omega
  have hfuel2 : 11 - (d + 1) = 10 - d := by omega
  refine ⟨?_, ?_, ?_, ?_⟩
  · intro hp hf hk
    show f ∈ (GenTypes.findAux (11 - d) schema t d dbg c).1
    rw [hfuel]
    exact GenTypes.mem_fst_direct hobj hp hf hk
  · intro kv hp hkv hchild
    show f ∈ (GenTypes.findAux (11 - d) schema t d dbg c).1
    rw [hfuel]
    have hchild' : f ∈ (GenTypes.findAux (11 - (d + 1)) kv.2 t (d + 1) dbg c).1 :=
      hchild
    rw [hfuel2] at hchild'
    exact GenTypes.mem_fst_prop_child hobj hp hkv hchild'
  · intro hi hchild
    show f ∈ (GenTypes.findAux (11 - d) schema t d dbg c).1
    rw [hfuel]
    have hchild' : f ∈ (GenTypes.findAux (11 - (d + 1)) (jsIndex schema "items")
        t (d + 1) dbg c).1 := hchild
    rw [hfuel2] at hchild'
    exact GenTypes.mem_fst_items hobj hi hchild'
  · intro key subs sub hkey harr hsub hchild
    show f ∈ (GenTypes.findAux (11 - d) schema t d dbg c).1
    rw [hfuel]
    have hchild' : f ∈ (GenTypes.findAux (11 - (d + 1)) sub t (d + 1) dbg c).1 :=
      hchild
    rw [hfuel2] at hchild'
    exact GenTypes.mem_fst_combined hobj hkey harr hsub hchild'

/-- Witness for C6 on four concrete schemas. -/
theorem claim_C6_matching_witness :
    ("email" ∈ (GenTypes.findFieldsInSchema exSchemaEmail ["email"] 0 false
      ⟨none, none, none⟩).1) ∧
    ("email" ∈ (GenTypes.findFieldsInSchema
      (Json.obj [("properties", Json.obj [("user", exSchemaEmail)])])
      ["email"] 0 false ⟨none, none, none⟩).1) ∧
    ("email" ∈ (GenTypes.findFieldsInSchema (Json.obj [("items", exSchemaEmail)])
      ["email"] 0 false ⟨none, none, none⟩).1) ∧
    ("email" ∈ (GenTypes.findFieldsInSchema
      (Json.obj [("allOf", Json.arr [exSchemaEmail])])
      ["email"] 0 false ⟨none, none, none⟩).1) :=
  ⟨(claim_C6_matching exSchemaEmail ["email"] 0 false ⟨none, none, none⟩ "email"
      rfl (by omega)).1 rfl (by decide) rfl,
   (claim_C6_matching (Json.obj [("properties", Json.obj [("user", exSchemaEmail)])])
      ["email"] 0 false ⟨none, none, none⟩ "email" rfl (by omega)).2.1
      ("user", exSchemaEmail) rfl (List.mem_singleton.mpr rfl) (by decide),
   (claim_C6_matching (Json.obj [("items", exSchemaEmail)]) ["email"] 0 false
      ⟨none, none, none⟩ "email" rfl (by omega)).2.2.1 rfl (by decide),
   (claim_C6_matching (Json.obj [("allOf", Json.arr [exSchemaEmail])])
      ["email"] 0 false ⟨none, none, none⟩ "email" rfl (by omega)).2.2.2
      "allOf" [exSchemaEmail] exSchemaEmail (by decide) rfl
      (List.mem_singleton.mpr rfl) (by decide)⟩

/-- Counterexample for C4 as frozen: with the empty-string `$ref` — a
`$ref` string — on `exEmptyRefDoc`, every segment of the walk resolves to a
truthy node whose schema contains `email`, yet the finder returns nothing,
because the falsy empty string disables the whole resolution branch. -/
theorem claim_C4_counterexample :
    truthy (SimpleGenTypes.walkRef exEmptyRefDoc (SimpleGenTypes.refSegments ""))
      = true ∧
    ("email" ∈ SimpleGenTypes.findFieldsInSchema
      (SimpleGenTypes.walkRef exEmptyRefDoc (SimpleGenTypes.refSegments ""))
      ["email"] 1 exEmptyRefDoc) ∧
    SimpleGenTypes.findFieldsInSchema exEmptyRefSchema ["email"] 0 exEmptyRefDoc
      = [] :=
  ⟨rfl, by decide, by decide⟩

/-- C4 (amended to non-empty `$ref` strings): the finder resolves the
reference by splitting it into path segments and walking the document; when
the walk ends on a truthy node the fields found in it are included, and when
it fails the reference contributes nothing — deleting the `$ref` key leaves
the result unchanged — and, the embedding being total, no error is raised. -/
theorem claim_C4_ref_resolution (schema : Json) (t : List String) (d : Nat)
    (doc : Json) (r : String)
    (hobj : isObjectLike schema = true) (hd : d ≤ 10)
    (href : jsIndex schema "$ref" = Json.str r) (hr : r ≠ "")
    (hdoc : truthy doc = true) :
    (truthy (SimpleGenTypes.walkRef doc (SimpleGenTypes.refSegments r)) = true →
      ∀ f ∈ SimpleGenTypes.findFieldsInSchema
        (SimpleGenTypes.walkRef doc (SimpleGenTypes.refSegments r)) t (d + 1) doc,
        f ∈ SimpleGenTypes.findFieldsInSchema schema t d doc) ∧
    (truthy (SimpleGenTypes.walkRef doc (SimpleGenTypes.refSegments r)) = false →
      SimpleGenTypes.findFieldsInSchema schema t d doc =
        SimpleGenTypes.findFieldsInSchema (removeKey schema "$ref") t d doc) := by
  have hfuel : 11 - d = (10 - d) + 1 := by omega
  have hfuel2 : 11 - (d + 1) = 10 - d := by omega
  constructor
  · intro hwalk f hf
    show f ∈ SimpleGenTypes.findAux (11 - d) schema t d doc
    rw [hfuel]
    have hf' : f ∈ SimpleGenTypes.findAux (11 - (d + 1))
        (SimpleGenTypes.walkRef doc (SimpleGenTypes.refSegments r)) t (d + 1)
        doc := hf
    rw [hfuel2] at hf'
    exact SimpleGenTypes.mem_findAux_ref hobj href hr hdoc hwalk hf'
  · intro hwalk
    cases schema with
    | null => simp [isObjectLike] at hobj
    | bool b => simp [isObjectLike] at hobj
    | num n => simp [isObjectLike] at hobj
    | str s => simp [isObjectLike] at hobj
    | arr elems =>
      exfalso
      have e2 : parseArrayIndex "$ref" = none := by decide
      have h1 : jsIndex (Json.arr elems) "$ref" = Json.null := by
        show (jsProp (Json.arr elems) "$ref").getD Json.null = Json.null
        rw [jsProp, if_neg (by decide), e2]
        rfl
      rw [h1] at href
      exact Json.noConfusion href
    | obj fields =>
      show SimpleGenTypes.findAux (11 - d) (Json.obj fields) t d doc =
        SimpleGenTypes.findAux (11 - d) (removeKey (Json.obj fields) "$ref") t d doc
      rw [hfuel]
      exact SimpleGenTypes.findAux_refFail (10 - d) fields t d doc r href hwalk

/-- Witness for C4: a resolving reference includes the resolved node's
fields; a failing one leaves the result equal to the `$ref`-free result. -/
theorem claim_C4_ref_resolution_witness :
    ("email" ∈ SimpleGenTypes.findFieldsInSchema exRefSchema ["email"] 0
      exRefDoc) ∧
    (SimpleGenTypes.findFieldsInSchema exRefSchema ["email"] 0 exRefDocMissing =
      SimpleGenTypes.findFieldsInSchema (removeKey exRefSchema "$ref") ["email"]
        0 exRefDocMissing) :=
  ⟨(claim_C4_ref_resolution exRefSchema ["email"] 0 exRefDoc
      "#/components/schemas/A" rfl (by omega) rfl (by decide) rfl).1 rfl "email"
      (by decide),
   (claim_C4_ref_resolution exRefSchema ["email"] 0 exRefDocMissing
      "#/components/schemas/A" rfl (by omega) rfl (by decide) rfl).2 rfl⟩

/-- Counterexample for C1 as frozen: in `exDocEmptyTags` the GET operation
has `tags: []` (an empty sequence) and its response schema contains
`email`, so the field is found and `/a` reaches `fieldPaths.email`; yet the
field's bucket map stays empty — nothing is added under "default", because
the truthy empty array short-circuits `operation.tags || [DEFAULT_GROUP]`. -/
theorem claim_C1_counterexample :
    objGet (GenTypes.extractResponseFieldPaths exDocEmptyTags
      ["email"]).fieldPaths "email" = some ["/a"] ∧
    objGet (GenTypes.extractResponseFieldPaths exDocEmptyTags
      ["email"]).groupFieldPaths "email" = some [] := by
  constructor
  · rfl
  · rfl

/-- C1 (amended): a found field contributes its path under the default group
only when the operation's `tags` is absent; when `tags` is present — the
empty sequence included — the path goes only to the buckets of the listed
tags, so an empty `tags` array contributes to no bucket. -/
theorem claim_C1_tag_buckets :
    (∀ {openApi : OpenApiDocument} {targets : List String}
      {ps : List (String × Option PathItem)} {path method : String}
      {pathItem : PathItem} {op : Operation} {rv mv : String × Json} {f : String},
      openApi.paths = some ps → (path, some pathItem) ∈ ps →
      method ∈ HTTP_METHODS → objGet pathItem method = some op →
      truthy op.responses = true → rv ∈ jsOwnEntries op.responses →
      truthy rv.2 = true → truthy (jsIndex rv.2 "content") = true →
      mv ∈ jsOwnEntries (jsIndex rv.2 "content") →
      truthy (jsIndex mv.2 "schema") = true →
      f ∈ (GenTypes.findFieldsInSchema (jsIndex mv.2 "schema") targets 0 true
        ⟨some path, some method, some GenTypes.Location.response⟩).1 →
      (op.tags = none → GenTypes.GroupBucketContains
        (GenTypes.extractResponseFieldPaths openApi targets) f DEFAULT_GROUP path) ∧
      (∀ ts, op.tags = some ts → ∀ g ∈ ts, GenTypes.GroupBucketContains
        (GenTypes.extractResponseFieldPaths openApi targets) f g path)) ∧
    (∀ {openApi : OpenApiDocument} {targets : List String}
      {ps : List (String × Option PathItem)} {path method : String}
      {pathItem : PathItem} {op : Operation} {mv : String × Json} {f : String},
      openApi.paths = some ps → (path, some pathItem) ∈ ps →
      method ∈ HTTP_METHODS → objGet pathItem method = some op →
      truthy op.requestBody = true →
      truthy (jsIndex op.requestBody "content") = true →
      mv ∈ jsOwnEntries (jsIndex op.requestBody "content") →
      truthy (jsIndex mv.2 "schema") = true →
      f ∈ (GenTypes.findFieldsInSchema (jsIndex mv.2 "schema") targets 0 true
        ⟨some path, some method, some GenTypes.Location.request⟩).1 →
      (op.tags = none → GenTypes.GroupBucketContains
        (GenTypes.extractRequestFieldPaths openApi targets) f DEFAULT_GROUP path) ∧
      (∀ ts, op.tags = some ts → ∀ g ∈ ts, GenTypes.GroupBucketContains
        (GenTypes.extractRequestFieldPaths openApi targets) f g path)) := by
  constructor
  · intro openApi targets ps path method pathItem op rv mv f
      hps hentry hm hop hrs hrv hresp hcontent hmv hschema hf
    constructor
    · intro htags
      exact GenTypes.extractResponseFieldPaths_group_mem hps hentry hm hop hrs
        hrv hresp hcontent hmv hschema hf
        (by rw [htags]; exact List.mem_cons_self _ _)
    · intro ts htags g hg
      exact GenTypes.extractResponseFieldPaths_group_mem hps hentry hm hop hrs
        hrv hresp hcontent hmv hschema hf (by rw [htags]; exact hg)
  · intro openApi targets ps path method pathItem op mv f
      hps hentry hm hop hrb hcontent hmv hschema hf
    constructor
    · intro htags
      exact GenTypes.extractRequestFieldPaths_group_mem hps hentry hm hop hrb
        hcontent hmv hschema hf (by rw [htags]; exact List.mem_cons_self _ _)
    · intro ts htags g hg
      exact GenTypes.extractRequestFieldPaths_group_mem hps hentry hm hop hrb
        hcontent hmv hschema hf (by rw [htags]; exact hg)

/-- Witness for C1: an untagged GET response finding lands in the default
bucket, and so does an untagged POST request-body finding. -/
theorem claim_C1_tag_buckets_witness :
    GenTypes.GroupBucketContains
      (GenTypes.extractResponseFieldPaths exDocNoTags ["email"]) "email"
      DEFAULT_GROUP "/a" ∧
    GenTypes.GroupBucketContains
      (GenTypes.extractRequestFieldPaths exDocRequest ["email"]) "email"
      DEFAULT_GROUP "/b" :=
  ⟨(claim_C1_tag_buckets.1
      (rfl : exDocNoTags.paths = some [("/a", some [("get", exOpNoTags)])])
      (List.mem_cons_self ("/a", some [("get", exOpNoTags)]) [])
      (by decide : "get" ∈ HTTP_METHODS)
      (rfl : objGet [("get", exOpNoTags)] "get" = some exOpNoTags)
      rfl
      (List.mem_cons_self ("200", Json.obj [("content", exMediaJson)]) [])
      rfl rfl
      (List.mem_cons_self ("application/json",
        Json.obj [("schema", exSchemaEmail)]) [])
      rfl (by decide)).1 rfl,
   (claim_C1_tag_buckets.2
      (rfl : exDocRequest.paths = some [("/b", some [("post", exOpRequest)])])
      (List.mem_cons_self ("/b", some [("post", exOpRequest)]) [])
      (by decide : "post" ∈ HTTP_METHODS)
      (rfl : objGet [("post", exOpRequest)] "post" = some exOpRequest)
      rfl rfl
      (List.mem_cons_self ("application/json",
        Json.obj [("schema", exSchemaEmail)]) [])
      rfl (by decide)).1 rfl⟩

/-- C7: an operation tagged with several tags whose response schema contains
a target field puts the path into the bucket of every one of those tags. -/
theorem claim_C7_multitag_fanout {openApi : OpenApiDocument}
    {targets : List String} {ps : List (String × Option PathItem)}
    {path method : String} {pathItem : PathItem} {op : Operation}
    {rv mv : String × Json} {f : String} {ts : List String} {g1 g2 : String}
    (hps : openApi.paths = some ps) (hentry : (path, some pathItem) ∈ ps)
    (hm : method ∈ HTTP_METHODS) (hop : objGet pathItem method = some op)
    (hrs : truthy op.responses = true) (hrv : rv ∈ jsOwnEntries op.responses)
    (hresp : truthy rv.2 = true)
    (hcontent : truthy (jsIndex rv.2 "content") = true)
    (hmv : mv ∈ jsOwnEntries (jsIndex rv.2 "content"))
    (hschema : truthy (jsIndex mv.2 "schema") = true)
    (hf : f ∈ (GenTypes.findFieldsInSchema (jsIndex mv.2 "schema") targets 0
      true ⟨some path, some method, some GenTypes.Location.response⟩).1)
    (htags : op.tags = some ts) (hg1 : g1 ∈ ts) (hg2 : g2 ∈ ts) :
    GenTypes.GroupBucketContains
      (GenTypes.extractResponseFieldPaths openApi targets) f g1 path ∧
    GenTypes.GroupBucketContains
      (GenTypes.extractResponseFieldPaths openApi targets) f g2 path :=
  ⟨GenTypes.extractResponseFieldPaths_group_mem hps hentry hm hop hrs hrv hresp
    hcontent hmv hschema hf (by rw [htags]; exact hg1),
   GenTypes.extractResponseFieldPaths_group_mem hps hentry hm hop hrs hrv hresp
    hcontent hmv hschema hf (by rw [htags]; exact hg2)⟩

/-- Witness for C7 on the `["auth", "users"]` document. -/
theorem claim_C7_multitag_fanout_witness :
    GenTypes.GroupBucketContains
      (GenTypes.extractResponseFieldPaths exDocTwoTags ["email"]) "email"
      "auth" "/login" ∧
    GenTypes.GroupBucketContains
      (GenTypes.extractResponseFieldPaths exDocTwoTags ["email"]) "email"
      "users" "/login" :=
  claim_C7_multitag_fanout
    (rfl : exDocTwoTags.paths = some [("/login", some [("get", exOpTwoTags)])])
    (List.mem_cons_self ("/login", some [("get", exOpTwoTags)]) [])
    (by decide : "get" ∈ HTTP_METHODS)
    (rfl : objGet [("get", exOpTwoTags)] "get" = some exOpTwoTags)
    rfl
    (List.mem_cons_self ("200", Json.obj [("content", exMediaJson)]) [])
    rfl rfl
    (List.mem_cons_self ("application/json",
      Json.obj [("schema", exSchemaEmail)]) [])
    rfl (by decide)
    (rfl : exOpTwoTags.tags = some ["auth", "users"])
    (by decide : "auth" ∈ ["auth", "users"])
    (by decide : "users" ∈ ["auth", "users"])

/-- Counterexample for C2 as frozen: on a document with no `paths` and a
non-empty target list, `groupFieldPaths` is not an empty mapping — it maps
every requested field to an empty inner mapping. -/
theorem claim_C2_counterexample :
    (GenTypes.extractResponseFieldPaths exDocNoPaths ["email"]).groupFieldPaths
      = [("email", [])] ∧
    (GenTypes.extractResponseFieldPaths exDocNoPaths ["email"]).groupFieldPaths
      ≠ ([] : List (String × List (String × List String))) := by
  constructor
  · rfl
  · intro h
    rw [show (GenTypes.extractResponseFieldPaths exDocNoPaths
      ["email"]).groupFieldPaths = [("email", [])] from rfl] at h
    cases h

/-- C2 (amended): on a document whose `paths` is absent, the grouper returns
the empty mapping, and each scanner returns `fieldPaths` mapping every
requested field to an empty list and `groupFieldPaths` mapping every
requested field to an empty inner mapping. -/
theorem claim_C2_no_paths (targets : List String) (openApi : OpenApiDocument)
    (hps : openApi.paths = none) :
    GenTypes.extractGroupPaths openApi = [] ∧
    (∀ f ∈ targets,
      objGet (GenTypes.extractResponseFieldPaths openApi targets).fieldPaths f
        = some [] ∧
      objGet (GenTypes.extractResponseFieldPaths openApi targets).groupFieldPaths
        f = some [] ∧
      objGet (GenTypes.extractRequestFieldPaths openApi targets).fieldPaths f
        = some [] ∧
      objGet (GenTypes.extractRequestFieldPaths openApi targets).groupFieldPaths
        f = some []) := by
  have h1 : GenTypes.extractResponseFieldPaths openApi targets =
      ⟨objFromConst targets [], objFromConst targets []⟩ :=
    GenTypes.extractFieldPaths_noPaths _ hps
  have h2 : GenTypes.extractRequestFieldPaths openApi targets =
      ⟨objFromConst targets [], objFromConst targets []⟩ :=
    GenTypes.extractFieldPaths_noPaths _ hps
  constructor
  · unfold GenTypes.extractGroupPaths
    rw [hps]
  · intro f hf
    rw [h1, h2]
    refine ⟨?_, ?_, ?_, ?_⟩ <;>
      simp only [] <;> rw [objGet_objFromConst, if_pos hf]

/-- Witness for C2 on the empty-paths document. -/
theorem claim_C2_no_paths_witness :
    GenTypes.extractGroupPaths exDocNoPaths = [] ∧
    objGet (GenTypes.extractResponseFieldPaths exDocNoPaths
      ["email"]).fieldPaths "email" = some [] :=
  ⟨(claim_C2_no_paths ["email"] exDocNoPaths rfl).1,
   ((claim_C2_no_paths ["email"] exDocNoPaths rfl).2 "email"
     (List.mem_cons_self _ _)).1⟩

/-- C8: every path list in the outputs of the grouper and of both scanners
(each group's list, each field's list, each per-field per-group list) is
lexicographically sorted and free of duplicates; the outputs are total
functions of the document and target list, hence deterministic. -/
theorem claim_C8_sorted_dedup (openApi : OpenApiDocument)
    (targets : List String) :
    (∀ g l, objGet (GenTypes.extractGroupPaths openApi) g = some l →
      l.Sorted (fun a b => strLe a b = true) ∧ l.Nodup) ∧
    (∀ f l, objGet (GenTypes.extractResponseFieldPaths openApi
        targets).fieldPaths f = some l →
      l.Sorted (fun a b => strLe a b = true) ∧ l.Nodup) ∧
    (∀ f inner g l, objGet (GenTypes.extractResponseFieldPaths openApi
        targets).groupFieldPaths f = some inner → objGet inner g = some l →
      l.Sorted (fun a b => strLe a b = true) ∧ l.Nodup) ∧
    (∀ f l, objGet (GenTypes.extractRequestFieldPaths openApi
        targets).fieldPaths f = some l →
      l.Sorted (fun a b => strLe a b = true) ∧ l.Nodup) ∧
    (∀ f inner g l, objGet (GenTypes.extractRequestFieldPaths openApi
        targets).groupFieldPaths f = some inner → objGet inner g = some l →
      l.Sorted (fun a b => strLe a b = true) ∧ l.Nodup) := by
  have hR := @GenTypes.extractFieldPaths_sorted_nodup openApi targets
    GenTypes.scanOperationResponses
    (fun st' p m op h => GenTypes.scanInv_scanOperationResponses h)
  have hQ := @GenTypes.extractFieldPaths_sorted_nodup openApi targets
    GenTypes.scanOperationRequest
    (fun st' p m op h => GenTypes.scanInv_scanOperationRequest h)
  exact ⟨fun g l h => GenTypes.extractGroupPaths_sorted_nodup h,
    hR.1, hR.2, hQ.1, hQ.2⟩

/-- Witness for C8 on the two-tag document. -/
theorem claim_C8_sorted_dedup_witness :
    (List.Sorted (fun a b => strLe a b = true) ["/login"] ∧
      (["/login"] : List String).Nodup) ∧
    (List.Sorted (fun a b => strLe a b = true) ["/login"] ∧
      (["/login"] : List String).Nodup) :=
  ⟨(claim_C8_sorted_dedup exDocTwoTags ["email"]).1 "auth" ["/login"] rfl,
   (claim_C8_sorted_dedup exDocTwoTags ["email"]).2.1 "email" ["/login"] rfl⟩
